import Mathlib

/-!
Verification development for `tools/codegen/core/gen_experiments.py`, the
gRPC experiments code generator.

The Python script is shallowly embedded below.  YAML records become Lean
structures with `Option` fields (a missing dictionary key is `none`);
Python dictionary accesses `d['k']` become `Option` binds, so any access
that would raise `KeyError` (or a `NameError` / `ValueError` / unicode
error along the same control path) makes the embedded function return
`none`.  Calendar dates are embedded as proleptic-Gregorian day ordinals
(`Nat`, the value of Python's `date.toordinal`), which is an order
embedding of dates, so date comparisons and `timedelta(days = 180)`
become `Nat` comparisons and `+ 180`.  Python `str.upper` /
`str.capitalize` are modelled on ASCII letters, the only characters the
generator's snake_case identifiers contain.  Run-independent constant
output (the copyright banner copied from the script's own source and the
fixed doc banner) is abbreviated to short placeholder lines: it does not
depend on the input documents, so it cannot affect any claim about how
output varies with input.
-/

set_option autoImplicit false

/-- A YAML scalar as it appears in the `default` field of a rollout
record: either a YAML boolean (`true` / `false`) or a string
(`"broken"`, `"debug"`, ...). -/
inductive RVal where
  | pbool : Bool → RVal
  | pstr : String → RVal
  deriving DecidableEq

/-- One record of `rollouts.yaml`: fields `name` and `default`,
either possibly missing. -/
structure RolloutRec where
  name : Option String
  default : Option RVal
  deriving DecidableEq

/-- One record of `experiments.yaml`. -/
structure ExpRec where
  name : Option String
  description : Option String
  owner : Option String
  expiry : Option String
  test_tags : Option (List String)
  allow_in_fuzzing_config : Option Bool
  deriving DecidableEq

/-- The `DEFAULTS` dictionary (keys `'broken'`, `False`, `True`,
`'debug'`); `none` models a `KeyError` on any other key. -/
def DEFAULTS : RVal → Option String
  | .pbool false => some "false"
  | .pbool true => some "true"
  | .pstr s =>
    if s = "broken" then some "false"
    else if s = "debug" then some "kDefaultForDebugOnly"
    else none

/-- The `FINAL_RETURN` dictionary. -/
def FINAL_RETURN : RVal → Option String
  | .pbool false => some "return false;"
  | .pbool true => some "return true;"
  | .pstr s =>
    if s = "broken" then some "return false;"
    else if s = "debug" then
      some "#ifdef NDEBUG\nreturn false;\n#else\nreturn true;\n#endif"
    else none

/-- The `FINAL_DEFINE` dictionary.  The Python dictionary stores either
`None` (no inclusion marker) or a `%s` format string later applied to the
marker name; a format string is modelled as the corresponding
substitution function. -/
def FINAL_DEFINE : RVal → Option (Option (String → String))
  | .pbool false => some none
  | .pbool true => some (some (fun m => "#define " ++ m))
  | .pstr s =>
    if s = "broken" then some none
    else if s = "debug" then
      some (some (fun m => "#ifndef NDEBUG\n#define " ++ m ++ "\n#endif"))
    else none

/-- The `BZL_LIST_FOR_DEFAULTS` dictionary. -/
def BZL_LIST_FOR_DEFAULTS : RVal → Option (Option String)
  | .pbool false => some (some "off")
  | .pbool true => some (some "on")
  | .pstr s =>
    if s = "broken" then some none
    else if s = "debug" then some (some "dbg")
    else none

/-- Python `str.split(sep)` for a one-character separator, on the
character list: splitting the empty string gives `[""]`, adjacent
separators give empty pieces. -/
def splitOnChar (sep : Char) : List Char → List (List Char)
  | [] => [[]]
  | c :: cs =>
    let r := splitOnChar sep cs
    if c = sep then [] :: r
    else
      match r with
      | [] => [[c]]
      | h :: t => (c :: h) :: t

/-- Python `s.split(sep)` on strings. -/
def pySplit (s : String) (sep : Char) : List String :=
  (splitOnChar sep s.data).map String.mk

/-- Decimal value of a digit string (used only under an all-digits
guard). -/
def digitsToNat : List Char → Nat → Nat
  | [], acc => acc
  | c :: cs, acc => digitsToNat cs (acc * 10 + (c.toNat - 48))

/-! ### Dates

`datetime.date` is embedded as its proleptic-Gregorian ordinal. -/

def isLeap (y : Nat) : Bool :=
  y % 4 == 0 && (y % 100 != 0 || y % 400 == 0)

def daysInMonth (y m : Nat) : Nat :=
  if m = 2 then (if isLeap y then 29 else 28)
  else if m = 4 ∨ m = 6 ∨ m = 9 ∨ m = 11 then 30
  else 31

def daysBeforeMonth (y m : Nat) : Nat :=
  [0, 31, 59, 90, 120, 151, 181, 212, 243, 273, 304, 334].getD (m - 1) 0 +
    (if 2 < m ∧ isLeap y then 1 else 0)

/-- `date(y, m, d).toordinal()`. -/
def dateOrdinal (y m d : Nat) : Nat :=
  365 * (y - 1) + ((y - 1) / 4 - (y - 1) / 100) + (y - 1) / 400 +
    daysBeforeMonth y m + d

/-- `datetime.strptime(s, '%Y/%m/%d').date()`, returning the ordinal of
the parsed date, or `none` where Python raises `ValueError`: the year
must be exactly four digits, month and day one or two digits, and the
values must form a valid calendar date (as `strptime`'s regular
expressions plus the `datetime` constructor enforce). -/
def parseDate (s : String) : Option Nat :=
  match pySplit s '/' with
  | [ys, ms, ds] =>
    if ys.length = 4 ∧ ys.data.all Char.isDigit ∧
       1 ≤ ms.length ∧ ms.length ≤ 2 ∧ ms.data.all Char.isDigit ∧
       1 ≤ ds.length ∧ ds.length ≤ 2 ∧ ds.data.all Char.isDigit then
      let y := digitsToNat ys.data 0
      let m := digitsToNat ms.data 0
      let d := digitsToNat ds.data 0
      if 1 ≤ y ∧ 1 ≤ m ∧ m ≤ 12 ∧ 1 ≤ d ∧ d ≤ daysInMonth y m then
        some (dateOrdinal y m d)
      else none
    else none
  | _ => none

/-! ### Strings -/

/-- The code-point sequence of a string (the byte sequence of its ASCII
encoding, when all code points are below 128). -/
def strBytes (s : String) : List Nat :=
  s.data.map Char.toNat

/-- ASCII uppercase of one character (model of Python case mapping on
the ASCII range). -/
def upChar (c : Char) : Char :=
  if 'a' ≤ c ∧ c ≤ 'z' then Char.ofNat (c.toNat - 32) else c

/-- ASCII lowercase of one character. -/
def downChar (c : Char) : Char :=
  if 'A' ≤ c ∧ c ≤ 'Z' then Char.ofNat (c.toNat + 32) else c

/-- Python `str.upper()` (ASCII model). -/
def pyUpper (s : String) : String :=
  String.mk (s.data.map upChar)

/-- Python `str.capitalize()` (ASCII model): first character uppercased,
the rest lowercased. -/
def pyCapitalize (s : String) : String :=
  match s.data with
  | [] => ""
  | c :: cs => String.mk (upChar c :: cs.map downChar)

/-- `snake_to_pascal` from the script:
`''.join(x.capitalize() for x in s.split('_'))`. -/
def snake_to_pascal (s : String) : String :=
  String.join ((pySplit s '_').map pyCapitalize)

/-- Code-point-wise `≤` on code-point lists (Python string comparison). -/
def codesLe : List Nat → List Nat → Bool
  | [], _ => true
  | _ :: _, [] => false
  | a :: as, b :: bs =>
    if a < b then true else if b < a then false else codesLe as bs

/-- Python `<=` on strings (lexicographic by code point). -/
def strLe (a b : String) : Bool :=
  codesLe (strBytes a) (strBytes b)

def insertSorted (x : String) : List String → List String
  | [] => [x]
  | y :: ys => if strLe x y then x :: y :: ys else y :: insertSorted x ys

/-- Python `sorted` on a list of strings (insertion sort; stability is
irrelevant for equal strings). -/
def sortStrings (l : List String) : List String :=
  l.foldr insertSorted []

def insertPairSorted (x : String × List String) :
    List (String × List String) → List (String × List String)
  | [] => [x]
  | y :: ys => if strLe x.1 y.1 then x :: y :: ys else y :: insertPairSorted x ys

/-- Python `sorted` on `dict.items()` of a tag map: the keys are
pairwise distinct, so sorting compares only the keys. -/
def sortPairs (l : List (String × List String)) : List (String × List String) :=
  l.foldr insertPairSorted []

/-- One octal digit character. -/
def octDigitChar (n : Nat) : Char :=
  Char.ofNat (48 + n % 8)

/-- `'%03o' % n` for `n < 512`: exactly three octal digits. -/
def octal3 (n : Nat) : String :=
  String.mk [octDigitChar (n / 64), octDigitChar (n / 8), octDigitChar n]

/-- The body of `c_str`'s loop for one byte: printable non-special bytes
pass through, everything else becomes a backslash octal escape. -/
def escByte (c : Nat) : String :=
  if 32 ≤ c ∧ c < 127 ∧ c ≠ 92 ∧ c ≠ 34 then String.singleton (Char.ofNat c)
  else "\\" ++ octal3 c

/-- `c_str(s)` on a Python `str` given by its code points: the string is
first encoded as ASCII (`UnicodeEncodeError`, i.e. `none`, when any code
point is 128 or more), then each byte is escaped and the result is
wrapped in double quotes. -/
def c_str (s : List Nat) : Option String :=
  if s.all (fun c => c < 128) then
    some ("\"" ++ String.join (s.map escByte) ++ "\"")
  else none

/-! ### Validation

The two top-level validation loops (script lines 79-128).  A loop that
raises (`NameError` from the undefined `attr` at line 81, `KeyError`
from a missing dictionary key, `ValueError` from `strptime`) is `none`;
otherwise the result carries the accumulated `error` flag and the
printed diagnostic lines, in print order.  Messages printed on a control
path that later raises in the same run are dropped together with the
rest of the run (only normal termination is modelled as `some`). -/

/-- Python `repr` of a rollout `default` value. -/
def reprRVal : RVal → String
  | .pbool true => "True"
  | .pbool false => "False"
  | .pstr s => "'" ++ s ++ "'"

/-- Placeholder for Python `repr` of an experiment record (no claim
depends on this text). -/
def reprExpRec : ExpRec → String :=
  fun _ => "\x7b...\x7d"

/-- The rollout validation loop.  A record with no `name` raises
`NameError` (line 81 formats the undefined variable `attr`); a record
with no `default` prints a diagnostic and then raises `KeyError` at the
membership test on line 87; a record whose `default` is not a key of
`DEFAULTS` accumulates an error and continues. -/
def checkRollouts : List RolloutRec → Option (Bool × List String)
  | [] => some (false, [])
  | r :: rs =>
    match r.name with
    | none => none
    | some n =>
      match r.default with
      | none => none
      | some v =>
        match checkRollouts rs with
        | none => none
        | some (e, ms) =>
          if (DEFAULTS v).isSome then some (e, ms)
          else some (true,
            ("invalid default for experiment " ++ n ++ ": " ++ reprRVal v) :: ms)

/-- The body of the experiment validation loop for one record
(script lines 91-121).  The returned string is this record's
contribution to the annotation accumulator. -/
def expStep (today : Nat) (checkDates : Bool) (a : ExpRec) :
    Option (Bool × List String × String) :=
  match a.name with
  | none => some (true, ["experiment with no name: " ++ reprExpRec a], "")
  | some n =>
    let fieldErr : Bool :=
      a.description.isNone || a.owner.isNone || a.expiry.isNone
    let fieldMsgs : List String :=
      (if a.description.isNone then ["no description for experiment " ++ n] else []) ++
      (if a.owner.isNone then ["no owner for experiment " ++ n] else []) ++
      (if a.expiry.isNone then ["no expiry for experiment " ++ n] else [])
    if n = "monitoring_experiment" then
      match a.expiry with
      | none => none
      | some x =>
        if x ≠ "never-ever" then
          some (true, fieldMsgs ++ ["monitoring_experiment should never expire"], "")
        else some (fieldErr, fieldMsgs, "")
    else
      match a.expiry with
      | none => none
      | some x =>
        match parseDate x with
        | none => none
        | some d =>
          if checkDates then
            some (fieldErr || decide (d < today) || decide (today + 180 < d),
              fieldMsgs ++
                (if d < today then ["experiment " ++ n ++ " expired on " ++ x] else []) ++
                (if today + 180 < d then
                  ["experiment " ++ n ++ " expires far in the future on " ++ x,
                   "expiry should be no more than two quarters from now"] else []),
              n ++ ":0,")
          else some (fieldErr, fieldMsgs, "")

/-- The experiment validation loop: error flag, messages, and the
annotation accumulator (without its constant head). -/
def expLoop (today : Nat) (checkDates : Bool) : List ExpRec →
    Option (Bool × List String × String)
  | [] => some (false, [], "")
  | a :: as =>
    match expStep today checkDates a with
    | none => none
    | some (e1, m1, s1) =>
      match expLoop today checkDates as with
      | none => none
      | some (e2, m2, s2) => some (e1 || e2, m1 ++ m2, s1 ++ s2)

/-- The constant head of the annotation accumulator. -/
def annHead : String := "gRPC experiments:"

def tooLongMsg : String := "comma-delimited string of experiments is too long"

/-- Both validation passes plus the annotation length check
(lines 79-125): the final `error` flag and all printed diagnostics. -/
def validateAll (today : Nat) (checkDates : Bool)
    (attrs : List ExpRec) (rollouts : List RolloutRec) :
    Option (Bool × List String) :=
  match checkRollouts rollouts with
  | none => none
  | some (e1, m1) =>
    match expLoop today checkDates attrs with
    | none => none
    | some (e2, m2, s) =>
      let ann := annHead ++ s
      if 2000 < ann.length then some (true, m1 ++ m2 ++ [tooLongMsg])
      else some (e1 || e2, m1 ++ m2)

/-! ### Rollout resolution -/

/-- The linear scan inside `get_rollout_attr_for_experiment`: outer
`none` models the `KeyError` raised by `rollout_attr['name']` on a
record with no `name`; `some none` means the scan found no match. -/
def findRollout : List RolloutRec → String → Option (Option RolloutRec)
  | [], _ => some none
  | r :: rs, n =>
    match r.name with
    | none => none
    | some m => if m = n then some (some r) else findRollout rs n

/-- `get_rollout_attr_for_experiment(name)`: the first rollout record
with a matching name, or (with a printed warning) the synthetic record
`{'name': name, 'default': 'false'}` — note the *string* `'false'`. -/
def get_rollout_attr_for_experiment (rollouts : List RolloutRec) (n : String) :
    Option (RolloutRec × List String) :=
  match findRollout rollouts n with
  | none => none
  | some (some r) => some (r, [])
  | some none =>
    some (⟨some n, some (.pstr "false")⟩,
      ["WARNING. experiment: '" ++ n ++ "' has no rollout config. Disabling it."])

/-! ### Rendering

Artifacts are modelled as the list of strings the script passes to
`print` for the given file, in print order (one element may contain
embedded newlines exactly when the printed string does).  Each renderer
also returns the warnings printed on stdout while it ran.  `none` models
an uncaught exception while writing the artifact. -/

/-- The fixed-mode (`GRPC_EXPERIMENTS_ARE_FINAL`) header lines for one
experiment (lines 237-246). -/
def hFixedForAttr (rollouts : List RolloutRec) (a : ExpRec) :
    Option (List String × List String) := do
  let n ← a.name
  let (r, w) ← get_rollout_attr_for_experiment rollouts n
  let v ← r.default
  let dfmt ← FINAL_DEFINE v
  let ret ← FINAL_RETURN v
  let defLines := match dfmt with
    | none => []
    | some f => [f ("GRPC_EXPERIMENT_IS_INCLUDED_" ++ pyUpper n)]
  some (defLines ++
    ["inline bool Is" ++ snake_to_pascal n ++ "Enabled() \x7b " ++ ret ++ " \x7d"], w)

def hFixedLoop (rollouts : List RolloutRec) : List ExpRec →
    Option (List String × List String)
  | [] => some ([], [])
  | a :: as => do
    let (ls, w) ← hFixedForAttr rollouts a
    let (rest, ws) ← hFixedLoop rollouts as
    some (ls ++ rest, w ++ ws)

/-- The tunable-mode header lines (lines 248-253), indexed from `i`. -/
def hTunableLoop : Nat → List ExpRec → Option (List String)
  | _, [] => some []
  | i, a :: as => do
    let n ← a.name
    let rest ← hTunableLoop (i + 1) as
    some (("#define GRPC_EXPERIMENT_IS_INCLUDED_" ++ pyUpper n) ::
      ("inline bool Is" ++ snake_to_pascal n ++
        "Enabled() \x7b return IsExperimentEnabled(" ++ toString i ++ "); \x7d") :: rest)

/-- `experiments.h` (lines 218-263); the copyright/doc banner is the
input-independent placeholder first line. -/
def renderH (attrs : List ExpRec) (rollouts : List RolloutRec) :
    Option (List String × List String) := do
  let (fixedLines, w) ← hFixedLoop rollouts attrs
  let tun ← hTunableLoop 0 attrs
  some (["<banner>",
    "#ifndef GRPC_SRC_CORE_LIB_EXPERIMENTS_EXPERIMENTS_H",
    "#define GRPC_SRC_CORE_LIB_EXPERIMENTS_EXPERIMENTS_H", "",
    "#include <grpc/support/port_platform.h>", "",
    "#include <stddef.h>",
    "#include \"src/core/lib/experiments/config.h\"", "",
    "namespace grpc_core \x7b", "",
    "#ifdef GRPC_EXPERIMENTS_ARE_FINAL"] ++
    fixedLines ++ ["#else"] ++ tun ++ ["",
    "constexpr const size_t kNumExperiments = " ++ toString attrs.length ++ ";",
    "extern const ExperimentMetadata g_experiment_metadata[kNumExperiments];", "",
    "#endif", "\x7d  // namespace grpc_core", "",
    "#endif  // GRPC_SRC_CORE_LIB_EXPERIMENTS_EXPERIMENTS_H"], w)

/-- The description/constraints constant lines of `experiments.cc`
(lines 278-284). -/
def cDescLoop : List ExpRec → Option (List String)
  | [] => some []
  | a :: as => do
    let n ← a.name
    let dsc ← a.description
    let dlit ← c_str (strBytes dsc)
    let rest ← cDescLoop as
    some (("const char* const description_" ++ n ++ " = " ++ dlit ++ ";") ::
      ("const char* const additional_constraints_" ++ n ++ " = \"\";") :: rest)

/-- `set(DEFAULTS[rollout_attr['default']] for rollout_attr in rollouts)`
(line 285), as the list of looked-up values; building it raises
(`none`) as soon as one record has a missing or unrecognized default. -/
def haveDefaultsList : List RolloutRec → Option (List String)
  | [] => some []
  | r :: rs =>
    match r.default with
    | none => none
    | some v =>
      match DEFAULTS v with
      | none => none
      | some s =>
        match haveDefaultsList rs with
        | none => none
        | some l => some (s :: l)

/-- The `kDefaultForDebugOnly` guard block (lines 287-294), emitted when
`'kDefaultForDebugOnly'` is in `have_defaults`. -/
def debugBlock (rollouts : List RolloutRec) : Option (List String) :=
  (haveDefaultsList rollouts).map (fun l =>
    if l.contains "kDefaultForDebugOnly" then
      ["#ifdef NDEBUG", "const bool kDefaultForDebugOnly = false;",
       "#else", "const bool kDefaultForDebugOnly = true;", "#endif"]
    else [])

/-- The metadata table rows (lines 300-307). -/
def cMetaLoop (rl : List RolloutRec) : List ExpRec →
    Option (List String × List String)
  | [] => some ([], [])
  | a :: as => do
    let n ← a.name
    let (r, w) ← get_rollout_attr_for_experiment rl n
    let v ← r.default
    let dv ← DEFAULTS v
    let nlit ← c_str (strBytes n)
    let fuzz := match a.allow_in_fuzzing_config with
      | some b => b
      | none => true
    let (rest, ws) ← cMetaLoop rl as
    some (("  \x7b" ++ nlit ++ ", description_" ++ n ++ ", additional_constraints_" ++
      n ++ ", " ++ dv ++ ", " ++ (if fuzz then "true" else "false") ++ "\x7d,") :: rest,
      w ++ ws)

/-- `experiments.cc` (lines 265-311). -/
def renderC (attrs : List ExpRec) (rollouts : List RolloutRec) :
    Option (List String × List String) := do
  let descs ← cDescLoop attrs
  let db ← debugBlock rollouts
  let (metas, w) ← cMetaLoop rollouts attrs
  some (["<banner>",
    "#include <grpc/support/port_platform.h>",
    "#include \"src/core/lib/experiments/experiments.h\"", "",
    "#ifndef GRPC_EXPERIMENTS_ARE_FINAL",
    "namespace \x7b"] ++ descs ++ db ++ ["\x7d", "",
    "namespace grpc_core \x7b", "",
    "const ExperimentMetadata g_experiment_metadata[] = \x7b"] ++ metas ++
    ["\x7d;", "", "\x7d  // namespace grpc_core", "#endif"], w)

/-- The four tag maps of `bzl_to_tags_to_experiments`, one per
recognized `default` key, each an insertion-ordered association list
from test tag to experiment names. -/
structure TagMaps where
  brokenM : List (String × List String)
  offM : List (String × List String)
  onM : List (String × List String)
  dbgM : List (String × List String)
  deriving DecidableEq

/-- `defaultdict(list)` append: `m[tag].append(n)`. -/
def addTag (m : List (String × List String)) (tag n : String) :
    List (String × List String) :=
  match m with
  | [] => [(tag, [n])]
  | (t, l) :: rest =>
    if t = tag then (t, l ++ [n]) :: rest else (t, l) :: addTag rest tag n

def addTags (m : List (String × List String)) (tags : List String) (n : String) :
    List (String × List String) :=
  tags.foldl (fun acc t => addTag acc t n) m

/-- One step of the collection loop at lines 317-321:
`bzl_to_tags_to_experiments[default][tag].append(name)`; an
unrecognized `default` key raises `KeyError` (`none`). -/
def addExperimentToMaps (tm : TagMaps) (v : RVal) (tags : List String)
    (n : String) : Option TagMaps :=
  match v with
  | .pbool false => some { tm with offM := addTags tm.offM tags n }
  | .pbool true => some { tm with onM := addTags tm.onM tags n }
  | .pstr s =>
    if s = "broken" then some { tm with brokenM := addTags tm.brokenM tags n }
    else if s = "debug" then some { tm with dbgM := addTags tm.dbgM tags n }
    else none

/-- The collection loop over all experiments (lines 317-321); note the
unguarded `attr['test_tags']` access. -/
def bzlCollect (rollouts : List RolloutRec) : List ExpRec → TagMaps →
    Option (TagMaps × List String)
  | [], tm => some (tm, [])
  | a :: as, tm => do
    let n ← a.name
    let (r, w) ← get_rollout_attr_for_experiment rollouts n
    let v ← r.default
    let tags ← a.test_tags
    let tm' ← addExperimentToMaps tm v tags n
    let (tmFinal, ws) ← bzlCollect rollouts as tm'
    some (tmFinal, w ++ ws)

/-- Emission of one policy category of the bzl dictionary
(lines 342-349): tags sorted, then experiment names sorted. -/
def bzlEmitCat (key : String) (m : List (String × List String)) : List String :=
  ["    \"" ++ key ++ "\": \x7b"] ++
  (sortPairs m).flatMap (fun te =>
    ["        \"" ++ te.1 ++ "\": ["] ++
    (sortStrings te.2).map (fun e => "            \"" ++ e ++ "\",") ++
    ["        ],"]) ++
  ["    \x7d,"]

/-- `bazel/experiments.bzl` (lines 313-350).  After dropping the
`broken` category and sorting by category name, the emission order is
`dbg`, `off`, `on`. -/
def renderBzl (attrs : List ExpRec) (rollouts : List RolloutRec) :
    Option (List String × List String) := do
  let (tm, w) ← bzlCollect rollouts attrs ⟨[], [], [], []⟩
  some (["<banner>",
    "\"\"\"Dictionary of tags to experiments so we know when to test different experiments.\"\"\"",
    "", "EXPERIMENTS = \x7b"] ++
    bzlEmitCat "dbg" tm.dbgM ++ bzlEmitCat "off" tm.offM ++ bzlEmitCat "on" tm.onM ++
    ["\x7d"], w)

/-- The three artifacts plus all resolver warnings, in print order. -/
structure GenOutput where
  hLines : List String
  cLines : List String
  bLines : List String
  warnings : List String
  deriving DecidableEq

/-- Rendering of all three artifacts, in the order the script writes
them. -/
def renderAll (attrs : List ExpRec) (rollouts : List RolloutRec) :
    Option GenOutput := do
  let (hl, w1) ← renderH attrs rollouts
  let (cl, w2) ← renderC attrs rollouts
  let (bl, w3) ← renderBzl attrs rollouts
  some ⟨hl, cl, bl, w1 ++ w2 ++ w3⟩

/-- The whole run: validation, `sys.exit(1)` on any accumulated error,
then rendering.  `some (code, msgs, artifacts)` is normal termination
with that exit status; `none` is an uncaught exception. -/
def runGen (today : Nat) (checkDates : Bool)
    (attrs : List ExpRec) (rollouts : List RolloutRec) :
    Option (Nat × List String × Option GenOutput) :=
  match validateAll today checkDates attrs rollouts with
  | none => none
  | some (e, msgs) =>
    if e then some (1, msgs, none)
    else
      match renderAll attrs rollouts with
      | none => none
      | some out => some (0, msgs, some out)

/-! ### Helper lemmas -/

theorem charOfNat_toNat {n : Nat} (h : n < 128) : (Char.ofNat n).toNat = n := by
  unfold Char.ofNat
  rw [dif_pos (Or.inl (by omega) : n.isValidChar)]
  rfl

theorem foldlAppendData (l : List String) (a : String) :
    (l.foldl (· ++ ·) a).data = a.data ++ (l.map String.data).flatten := by
  induction l generalizing a with
  | nil => simp
  | cons h t ih => simp [List.foldl_cons, ih, String.data_append]

theorem joinData (l : List String) :
    (String.join l).data = (l.map String.data).flatten := by
  have : String.join l = l.foldl (· ++ ·) "" := rfl
  rw [this, foldlAppendData]
  rfl

/-! ### C10: `c_str` -/

/-- Claim-side description of the escaping of one byte: a byte inside
printable ASCII 32-126 that is neither backslash nor double quote
passes through; every other byte becomes a backslash followed by the
three-digit octal escape of its code. -/
def escSpec (c : Nat) : String :=
  if 32 ≤ c ∧ c ≤ 126 ∧ c ≠ 92 ∧ c ≠ 34 then String.singleton (Char.ofNat c)
  else "\\" ++ octal3 c

theorem escByte_eq_escSpec : escByte = escSpec := by
  funext c
  unfold escByte escSpec
  exact if_congr (by omega) rfl rfl

theorem escSpec_chars (c : Nat) (hc : c < 128) :
    ∀ ch ∈ (escSpec c).data, 32 ≤ ch.toNat ∧ ch.toNat ≤ 126 := by
  intro ch hch
  unfold escSpec at hch
  by_cases hp : 32 ≤ c ∧ c ≤ 126 ∧ c ≠ 92 ∧ c ≠ 34
  · rw [if_pos hp] at hch
    have : ch = Char.ofNat c := List.mem_singleton.mp hch
    subst this
    rw [charOfNat_toNat hc]
    exact ⟨hp.1, hp.2.1⟩
  · rw [if_neg hp] at hch
    have hdata : ("\\" ++ octal3 c).data =
        ['\\', octDigitChar (c / 64), octDigitChar (c / 8), octDigitChar c] := rfl
    rw [hdata] at hch
    have hdig : ∀ x : Nat, 32 ≤ (octDigitChar x).toNat ∧ (octDigitChar x).toNat ≤ 126 := by
      intro x
      unfold octDigitChar
      rw [charOfNat_toNat (by omega)]
      omega
    rcases List.mem_cons.mp hch with rfl | hch
    · exact ⟨by decide, by decide⟩
    rcases List.mem_cons.mp hch with rfl | hch
    · exact hdig _
    rcases List.mem_cons.mp hch with rfl | hch
    · exact hdig _
    rcases List.mem_cons.mp hch with rfl | hch
    · exact hdig _
    exact absurd hch (List.not_mem_nil ch)

/-- C10 (counterexample): on the one-character string `'é'` (code
point 233) the claim's promised double-quoted literal is not returned:
`c_str` raises `UnicodeEncodeError` while encoding (modelled as
`none`), refuting "for every input string". -/
theorem c10_counterexample : c_str [233] = none := rfl

/-- C10 (amended): for every input string whose code points are all
below 128 (so the ASCII encoding step succeeds), `c_str` returns the
double-quoted literal in which each character with code outside
printable ASCII 32-126, and each backslash or double quote, is replaced
by a backslash plus the three-digit octal escape of its code, and every
other character passes through; the octal escapes always have exactly
three digits, and the resulting literal consists solely of printable
ASCII characters (in particular it is a single line). -/
theorem c10_amended (s : List Nat) (h : ∀ c ∈ s, c < 128) :
    c_str s = some ("\"" ++ String.join (s.map escSpec) ++ "\"") ∧
    (∀ c ∈ s, (octal3 c).length = 3) ∧
    (∀ out, c_str s = some out → ∀ ch ∈ out.data, 32 ≤ ch.toNat ∧ ch.toNat ≤ 126) := by
  have hall : s.all (fun c => c < 128) = true := by
    rw [List.all_eq_true]
    intro c hc
    exact decide_eq_true (h c hc)
  have hcs : c_str s = some ("\"" ++ String.join (s.map escSpec) ++ "\"") := by
    rw [c_str, if_pos hall, escByte_eq_escSpec]
  refine ⟨hcs, fun c _ => rfl, ?_⟩
  intro out hout ch hch
  rw [hcs] at hout
  obtain rfl : ("\"" ++ String.join (s.map escSpec) ++ "\"") = out :=
    Option.some.inj hout
  rw [String.data_append, String.data_append, joinData, List.map_map] at hch
  have hq : (("\"" : String)).data = ['\"'] := rfl
  rw [hq] at hch
  rcases List.mem_append.mp hch with hch | hch
  · rcases List.mem_append.mp hch with hch | hch
    · rcases List.mem_singleton.mp hch with rfl
      exact ⟨by decide, by decide⟩
    · rw [List.mem_flatten] at hch
      obtain ⟨piece, hpiece, hchp⟩ := hch
      rw [List.mem_map] at hpiece
      obtain ⟨c, hcs', rfl⟩ := hpiece
      exact escSpec_chars c (h c hcs') ch hchp
  · rcases List.mem_singleton.mp hch with rfl
    exact ⟨by decide, by decide⟩

/-- C10 (witness): the amended theorem applied to the concrete input
`a`, `"`, newline: the quote and the newline are escaped with exactly
three octal digits, `a` passes through. -/
theorem c10_witness :
    (∀ c ∈ [97, 34, 10], c < 128) ∧
    c_str [97, 34, 10] = some "\"a\\042\\012\"" := by
  refine ⟨by decide, ?_⟩
  have h := (c10_amended [97, 34, 10] (by decide)).1
  exact h.trans (by decide)

/-! ### C9: the permanent monitoring flag -/

/-- C9 (confirmed): for every experiment record named
`monitoring_experiment` that has an `expiry` field, validation reports
the expiry error exactly when the expiry differs from the literal
sentinel `"never-ever"`, and no date parsing or date-window check is
applied: the characterization holds for an arbitrary expiry string `e`
and arbitrary `today` / mode, so even an unparseable or out-of-window
expiry is judged only by string comparison with the sentinel. -/
theorem c9_monitoring (today : Nat) (cd : Bool) (a : ExpRec) (e : String)
    (hn : a.name = some "monitoring_experiment")
    (hdesc : a.description.isSome) (howner : a.owner.isSome)
    (hexp : a.expiry = some e) :
    expStep today cd a = some (decide (e ≠ "never-ever"),
      if e = "never-ever" then [] else ["monitoring_experiment should never expire"],
      "") := by
  obtain ⟨dsc, hd⟩ := Option.isSome_iff_exists.mp hdesc
  obtain ⟨ow, ho⟩ := Option.isSome_iff_exists.mp howner
  by_cases he : e = "never-ever" <;>
    simp [expStep, hn, hd, ho, hexp, he]

/-- C9 (witness): the characterization at a record whose expiry is a
perfectly parseable date: the error fires regardless, with no date
check. -/
theorem c9_witness :
    expStep 0 true ⟨some "monitoring_experiment", some "d", some "o",
      some "2024/01/01", some [], none⟩ =
      some (true, ["monitoring_experiment should never expire"], "") := by
  have h := c9_monitoring 0 true
    ⟨some "monitoring_experiment", some "d", some "o", some "2024/01/01", some [], none⟩
    "2024/01/01" rfl rfl rfl rfl
  exact h.trans (by decide)

/-! ### C4: the expiry window in strict mode -/

/-- C4 (confirmed): in strict mode, for a non-exempt experiment record
whose expiry parses to the day ordinal `d`, validation reports the
"expired" error exactly when `d` is strictly before today and the
"too far in the future" error exactly when `d` is strictly more than
180 days after today; in particular an expiry equal to today or exactly
180 days ahead produces no error (boundaries inclusive). -/
theorem c4_expiry_window (today : Nat) (a : ExpRec) (n e : String) (d : Nat)
    (hn : a.name = some n) (hmon : n ≠ "monitoring_experiment")
    (hdesc : a.description.isSome) (howner : a.owner.isSome)
    (hexp : a.expiry = some e) (hp : parseDate e = some d) :
    expStep today true a = some (decide (d < today) || decide (today + 180 < d),
      (if d < today then ["experiment " ++ n ++ " expired on " ++ e] else []) ++
      (if today + 180 < d then
        ["experiment " ++ n ++ " expires far in the future on " ++ e,
         "expiry should be no more than two quarters from now"] else []),
      n ++ ":0,") ∧
    ((d = today ∨ d = today + 180) →
      expStep today true a = some (false, [], n ++ ":0,")) := by
  obtain ⟨dsc, hd⟩ := Option.isSome_iff_exists.mp hdesc
  obtain ⟨ow, ho⟩ := Option.isSome_iff_exists.mp howner
  have h1 : expStep today true a = some (decide (d < today) || decide (today + 180 < d),
      (if d < today then ["experiment " ++ n ++ " expired on " ++ e] else []) ++
      (if today + 180 < d then
        ["experiment " ++ n ++ " expires far in the future on " ++ e,
         "expiry should be no more than two quarters from now"] else []),
      n ++ ":0,") := by
    simp [expStep, hn, hmon, hd, ho, hexp, hp]
  refine ⟨h1, ?_⟩
  intro hd2
  rw [h1]
  have hA : ¬ d < today := by omega
  have hB : ¬ today + 180 < d := by omega
  simp [hA, hB]

/-- C4 (witness): the theorem applied at `today = 2026-10-12` with the
boundary expiry equal to today: no error is reported. -/
theorem c4_witness :
    expStep (dateOrdinal 2026 10 12) true
      ⟨some "foo", some "d", some "o", some "2026/10/12", some [], none⟩ =
      some (false, [], "foo:0,") :=
  (c4_expiry_window (dateOrdinal 2026 10 12)
    ⟨some "foo", some "d", some "o", some "2026/10/12", some [], none⟩
    "foo" "2026/10/12" (dateOrdinal 2026 10 12)
    rfl (by decide) rfl rfl rfl (by decide)).2 (Or.inl rfl)

/-! ### C8: fixed-mode rendering -/

/-- C8 (confirmed): in fixed mode, the emitted lines for one experiment
are derived solely from the resolved policy tag — `broken` and
`disabled` (`False`) give an always-false accessor and no inclusion
marker; `enabled` (`True`) gives an always-true accessor and an
unconditional marker; `debug` gives an accessor that is true only when
`NDEBUG` is undefined and a marker guarded by `#ifndef NDEBUG` — with
the accessor named `Is` + PascalCase(name) + `Enabled` and the marker
named with the UPPER_SNAKE_CASE conversion of the name. -/
theorem c8_fixed_mode (rollouts : List RolloutRec) (a : ExpRec) (n : String)
    (r : RolloutRec) (w : List String) (v : RVal)
    (hn : a.name = some n)
    (hres : get_rollout_attr_for_experiment rollouts n = some (r, w))
    (hv : r.default = some v) :
    (v = .pstr "broken" ∨ v = .pbool false →
      hFixedForAttr rollouts a =
        some (["inline bool Is" ++ snake_to_pascal n ++
          "Enabled() \x7b return false; \x7d"], w)) ∧
    (v = .pbool true →
      hFixedForAttr rollouts a =
        some (["#define GRPC_EXPERIMENT_IS_INCLUDED_" ++ pyUpper n,
          "inline bool Is" ++ snake_to_pascal n ++
            "Enabled() \x7b return true; \x7d"], w)) ∧
    (v = .pstr "debug" →
      hFixedForAttr rollouts a =
        some (["#ifndef NDEBUG\n#define GRPC_EXPERIMENT_IS_INCLUDED_" ++
            pyUpper n ++ "\n#endif",
          "inline bool Is" ++ snake_to_pascal n ++
            "Enabled() \x7b #ifdef NDEBUG\nreturn false;\n#else\nreturn true;\n#endif \x7d"],
          w)) := by
  refine ⟨?_, ?_, ?_⟩
  · rintro (rfl | rfl) <;>
      (simp [hFixedForAttr, hn, hres, hv, FINAL_DEFINE, FINAL_RETURN]
       ; simp only [String.append_assoc]
       ; rfl)
  · rintro rfl
    simp [hFixedForAttr, hn, hres, hv, FINAL_DEFINE, FINAL_RETURN]
    constructor
    · simp only [← String.append_assoc]
      rfl
    · simp only [String.append_assoc]
      rfl
  · rintro rfl
    simp [hFixedForAttr, hn, hres, hv, FINAL_DEFINE, FINAL_RETURN]
    constructor
    · simp only [← String.append_assoc]
      rfl
    · simp only [String.append_assoc]
      rfl

/-- C8 (witness): for `foo_bar` resolved to `True`, the accessor is
`IsFooBarEnabled` (PascalCase) and the marker ends in `FOO_BAR`
(UPPER_SNAKE_CASE). -/
theorem c8_witness :
    hFixedForAttr [⟨some "foo_bar", some (.pbool true)⟩]
      ⟨some "foo_bar", some "d", some "o", some "2026/11/01", some ["core"], none⟩ =
      some (["#define GRPC_EXPERIMENT_IS_INCLUDED_FOO_BAR",
        "inline bool IsFooBarEnabled() \x7b return true; \x7d"], []) := by
  have h := (c8_fixed_mode [⟨some "foo_bar", some (.pbool true)⟩]
    ⟨some "foo_bar", some "d", some "o", some "2026/11/01", some ["core"], none⟩
    "foo_bar" ⟨some "foo_bar", some (.pbool true)⟩ [] (.pbool true)
    rfl (by decide) rfl).2.1 rfl
  exact h.trans (by decide)

/-! ### C2: validation crash paths -/

/-- C2 (code_bug): validation does raise exceptions partway, contrary
to the claim (whose accumulate-and-continue design the code itself
follows everywhere else): a rollout record with a `name` but no
`default` prints its diagnostic and then crashes at the `DEFAULTS`
membership test (`KeyError`); a rollout record with no `name` crashes
formatting the undefined variable `attr` (`NameError`); an experiment
record with no `expiry` prints its diagnostic and then crashes at the
`strptime` call (`KeyError`); an unparseable expiry raises
`ValueError`; and a later record's violation (here `y`'s bogus default)
is consequently never reported. -/
theorem c2_code_bug :
    checkRollouts [⟨some "x", none⟩] = none ∧
    checkRollouts [⟨none, some (.pbool true)⟩] = none ∧
    expLoop 0 true [⟨some "foo", some "d", some "o", none, some [], none⟩] = none ∧
    expLoop 0 true [⟨some "foo", some "d", some "o", some "not-a-date", some [], none⟩] = none ∧
    validateAll 0 true [] [⟨some "x", none⟩, ⟨some "y", some (.pstr "bogus")⟩] = none :=
  ⟨rfl, rfl, rfl, rfl, rfl⟩

/-! ### C1: experiments with no rollout record -/

def fooC1 : ExpRec :=
  ⟨some "foo", some "d", some "o", some "2026/11/01", some ["core"], none⟩

/-- C1 (code_bug): an experiment with no matching rollout record does
get the warning and the synthetic policy, but the synthetic policy's
default is the *string* `'false'`, which is a key of none of the policy
dictionaries, so fixed-mode rendering raises `KeyError` and the run
aborts abnormally instead of exiting 0 with the experiment rendered as
disabled (the behaviour the claim — and the code's own
"Disabling it." warning — describe). -/
theorem c1_code_bug :
    validateAll (dateOrdinal 2026 10 12) true [fooC1] [] = some (false, []) ∧
    get_rollout_attr_for_experiment [] "foo" =
      some (⟨some "foo", some (.pstr "false")⟩,
        ["WARNING. experiment: 'foo' has no rollout config. Disabling it."]) ∧
    FINAL_DEFINE (.pstr "false") = none ∧
    renderAll [fooC1] [] = none ∧
    runGen (dateOrdinal 2026 10 12) true [fooC1] [] = none := by
  refine ⟨by decide, rfl, rfl, rfl, ?_⟩
  have h1 : validateAll (dateOrdinal 2026 10 12) true [fooC1] [] = some (false, []) := by
    decide
  rw [runGen, h1]
  rfl

/-! ### C7: the annotation accumulator -/

theorem joinCons (x : String) (l : List String) :
    String.join (x :: l) = x ++ String.join l := by
  apply String.ext
  rw [String.data_append, joinData, joinData, List.map_cons, List.flatten_cons]

/-- What one experiment record actually contributes to the annotation
accumulator (amended-claim side): in strict mode, every non-exempt
record with a name and a parseable expiry contributes `name ++ ":0,"`
whether or not it passes its other checks; in relaxed mode, and for the
monitoring flag, nothing. -/
def annContrib (cd : Bool) (a : ExpRec) : String :=
  match a.name, a.expiry with
  | some n, some e =>
    if cd ∧ n ≠ "monitoring_experiment" ∧ (parseDate e).isSome then n ++ ":0," else ""
  | _, _ => ""

/-- The full annotation body for a run. -/
def annOf (cd : Bool) (attrs : List ExpRec) : String :=
  String.join (attrs.map (annContrib cd))

theorem expStep_ann (today : Nat) (cd : Bool) (a : ExpRec)
    (e : Bool) (m : List String) (s1 : String)
    (h : expStep today cd a = some (e, m, s1)) : s1 = annContrib cd a := by
  rcases hna : a.name with _ | n
  · simp [expStep, hna] at h
    simp [annContrib, hna, ← h.2.2]
  · rcases hxe : a.expiry with _ | x
    · by_cases hmon : n = "monitoring_experiment" <;>
        simp [expStep, hna, hxe, hmon] at h
    · by_cases hmon : n = "monitoring_experiment"
      · by_cases hne : x = "never-ever" <;>
          simp [expStep, hna, hxe, hmon, hne] at h <;>
          simp [annContrib, hna, hxe, hmon, ← h.2.2]
      · rcases hpd : parseDate x with _ | d
        · simp [expStep, hna, hxe, hmon, hpd] at h
        · cases cd with
          | false =>
            simp [expStep, hna, hxe, hmon, hpd] at h
            simp [annContrib, hna, hxe, ← h.2.2]
          | true =>
            simp [expStep, hna, hxe, hmon, hpd] at h
            simp [annContrib, hna, hxe, hmon, hpd, ← h.2.2]

theorem expLoop_ann (today : Nat) (cd : Bool) :
    ∀ (attrs : List ExpRec) (e : Bool) (m : List String) (s : String),
      expLoop today cd attrs = some (e, m, s) → s = annOf cd attrs := by
  intro attrs
  induction attrs with
  | nil =>
    intro e m s h
    rw [expLoop] at h
    simp at h
    rw [← h.2.2, annOf]
    rfl
  | cons a as ih =>
    intro e m s h
    rw [expLoop] at h
    rcases h1 : expStep today cd a with _ | ⟨e1, m1, s1⟩
    · rw [h1] at h
      exact absurd h (by simp)
    · rw [h1] at h
      rcases h2 : expLoop today cd as with _ | ⟨e2, m2, s2⟩
      · rw [h2] at h
        exact absurd h (by simp)
      · rw [h2] at h
        simp at h
        rw [← h.2.2, annOf, List.map_cons, joinCons]
        rw [expStep_ann today cd a e1 m1 s1 h1, ih e2 m2 s2 h2]
        rfl

/-- C7 (amended): the annotation accumulator receives exactly the
contributions described by `annContrib` — in strict mode the name of
every non-exempt experiment with a parseable expiry, including ones
failing other validation checks; in relaxed mode nothing — and the
oversized-annotation failure is triggered exactly when the prefixed
concatenation exceeds 2000 characters: the final error flag is the
disjunction of the two passes' flags with that length test, and the
"too long" diagnostic is appended exactly in that case. -/
theorem c7_annotation_amended (today : Nat) (cd : Bool) (attrs : List ExpRec)
    (rollouts : List RolloutRec) (e1 e2 : Bool) (m1 m2 : List String) (s : String)
    (hr : checkRollouts rollouts = some (e1, m1))
    (he : expLoop today cd attrs = some (e2, m2, s)) :
    s = annOf cd attrs ∧
    validateAll today cd attrs rollouts =
      some (e1 || e2 || decide (2000 < (annHead ++ annOf cd attrs).length),
        m1 ++ m2 ++
          (if 2000 < (annHead ++ annOf cd attrs).length then [tooLongMsg] else [])) := by
  have hs := expLoop_ann today cd attrs e2 m2 s he
  subst hs
  refine ⟨rfl, ?_⟩
  rw [validateAll, hr, he]
  by_cases hlen : 2000 < (annHead ++ annOf cd attrs).length
  · simp only [if_pos hlen]
    simp [hlen]
    exact Or.inr (by rwa [String.length_append] at hlen)
  · simp only [if_neg hlen]
    simp [hlen]
    intro hsum
    exact absurd (by rwa [String.length_append] : 2000 < (annHead ++ annOf cd attrs).length) hlen

def bigName : String := String.mk (List.replicate 2100 'a')

def bigExp : ExpRec := ⟨some bigName, some "d", some "o", some "2026/11/01", some [], none⟩

/-- C7 (counterexample): a relaxed-mode (`--check`) run with one valid
experiment whose name makes the claim's concatenation exceed 2000
characters: the claim says such a run fails with a validation error,
but the code only accumulates annotation names under `check_dates`, so
the run passes validation and exits 0. -/
def bigRoll : RolloutRec := ⟨some bigName, some (.pbool true)⟩

/-- C7 (witness): the amended theorem applied to a strict-mode run with
one expired experiment: its name is still concatenated, and with a
short name the length check passes, so the only error is the expired
one. -/
theorem c7_witness :
    checkRollouts [⟨some "foo", some (.pbool true)⟩] = some (false, []) ∧
    expLoop 800000 true [⟨some "foo", some "d", some "o", some "2026/11/01", some [], none⟩] =
      some (true, ["experiment foo expired on 2026/11/01"], "foo:0,") ∧
    "foo:0," = annOf true [⟨some "foo", some "d", some "o", some "2026/11/01", some [], none⟩] ∧
    validateAll 800000 true [⟨some "foo", some "d", some "o", some "2026/11/01", some [], none⟩]
      [⟨some "foo", some (.pbool true)⟩] =
      some (true, ["experiment foo expired on 2026/11/01"]) := by
  have h := c7_annotation_amended 800000 true
    [⟨some "foo", some "d", some "o", some "2026/11/01", some [], none⟩]
    [⟨some "foo", some (.pbool true)⟩]
    false true [] ["experiment foo expired on 2026/11/01"] "foo:0,"
    (by decide) (by decide)
  refine ⟨by decide, by decide, h.1, ?_⟩
  exact h.2.trans (by decide)

/-! ### Facts extracted from a successful validation -/

/-- A rollout record that survives the rollout pass with no error and
no diagnostic: it has a name and a recognized default. -/
def validRolloutB (r : RolloutRec) : Bool :=
  r.name.isSome &&
    (match r.default with
     | some v => (DEFAULTS v).isSome
     | none => false)

theorem checkRollouts_ok :
    ∀ (rs : List RolloutRec) (m : List String),
      checkRollouts rs = some (false, m) → ∀ r ∈ rs, validRolloutB r = true := by
  intro rs
  induction rs with
  | nil => intro m _ r hr; exact absurd hr (List.not_mem_nil r)
  | cons r rs ih =>
    intro m h x hx
    rcases hna : r.name with _ | n
    · simp [checkRollouts, hna] at h
    · rcases hdv : r.default with _ | v
      · simp [checkRollouts, hna, hdv] at h
      · rcases hc : checkRollouts rs with _ | ⟨e, ms⟩
        · simp [checkRollouts, hna, hdv, hc] at h
        · by_cases hD : (DEFAULTS v).isSome
          · simp [checkRollouts, hna, hdv, hc, hD] at h
            rcases List.mem_cons.mp hx with rfl | hx
            · simp [validRolloutB, hna, hdv, hD]
            · exact ih ms (by rw [hc, h.1]) x hx
          · simp [checkRollouts, hna, hdv, hc, hD] at h
  

theorem fieldsOk (a : ExpRec)
    (h : (a.description.isNone || a.owner.isNone || a.expiry.isNone) = false) :
    a.description.isSome ∧ a.owner.isSome ∧ a.expiry.isSome := by
  rcases h1 : a.description with _ | d <;> rcases h2 : a.owner with _ | o <;>
    rcases h3 : a.expiry with _ | x <;> simp [h1, h2, h3] at h ⊢

theorem expStep_ok (today : Nat) (cd : Bool) (a : ExpRec) (m : List String) (s : String)
    (h : expStep today cd a = some (false, m, s)) :
    a.name.isSome ∧ a.description.isSome ∧ a.owner.isSome ∧ a.expiry.isSome := by
  rcases hna : a.name with _ | n
  · simp [expStep, hna] at h
  · rcases hxe : a.expiry with _ | x
    · by_cases hmon : n = "monitoring_experiment" <;> simp [expStep, hna, hxe, hmon] at h
    · by_cases hmon : n = "monitoring_experiment"
      · by_cases hne : x = "never-ever"
        · simp [expStep, hna, hxe, hmon, hne] at h
          exact ⟨by simp [hna], h.1.1, h.1.2, by simp [hxe]⟩
        · simp [expStep, hna, hxe, hmon, hne] at h
      · rcases hpd : parseDate x with _ | d
        · simp [expStep, hna, hxe, hmon, hpd] at h
        · cases cd with
          | false =>
            simp [expStep, hna, hxe, hmon, hpd] at h
            exact ⟨by simp [hna], h.1.1, h.1.2, by simp [hxe]⟩
          | true =>
            simp [expStep, hna, hxe, hmon, hpd] at h
            exact ⟨by simp [hna], h.1.1.1.1, h.1.1.1.2, by simp [hxe]⟩

theorem expLoop_ok (today : Nat) (cd : Bool) :
    ∀ (attrs : List ExpRec) (m : List String) (s : String),
      expLoop today cd attrs = some (false, m, s) →
      ∀ a ∈ attrs, a.name.isSome ∧ a.description.isSome ∧ a.owner.isSome ∧ a.expiry.isSome := by
  intro attrs
  induction attrs with
  | nil => intro m s _ a ha; exact absurd ha (List.not_mem_nil a)
  | cons a as ih =>
    intro m s h x hx
    rcases h1 : expStep today cd a with _ | ⟨e1, m1, s1⟩
    · simp [expLoop, h1] at h
    · rcases h2 : expLoop today cd as with _ | ⟨e2, m2, s2⟩
      · simp [expLoop, h1, h2] at h
      · simp [expLoop, h1, h2] at h
        have he : e1 = false ∧ e2 = false := h.1
        rcases List.mem_cons.mp hx with rfl | hx
        · exact expStep_ok today cd x m1 s1 (by rw [h1, he.1])
        · exact ih m2 s2 (by rw [h2, he.2]) x hx

theorem validateAll_false_inv (today : Nat) (cd : Bool) (attrs : List ExpRec)
    (rollouts : List RolloutRec) (msgs : List String)
    (h : validateAll today cd attrs rollouts = some (false, msgs)) :
    (∃ m1, checkRollouts rollouts = some (false, m1)) ∧
    (∃ m2 s, expLoop today cd attrs = some (false, m2, s)) := by
  rcases h1 : checkRollouts rollouts with _ | ⟨e1, m1⟩
  · rw [validateAll, h1] at h
    exact absurd h (by simp)
  · rcases h2 : expLoop today cd attrs with _ | ⟨e2, m2, s⟩
    · rw [validateAll, h1, h2] at h
      exact absurd h (by simp)
    · simp only [validateAll, h1, h2] at h
      split at h
      · simp at h
      · simp at h
        exact ⟨⟨m1, by rw [h.1.1]⟩, ⟨m2, s, by rw [h.1.2]⟩⟩


/-! ### Resolution lemmas -/

theorem findRollout_isSome :
    ∀ (rs : List RolloutRec) (n : String), (∀ r ∈ rs, r.name.isSome) →
      (findRollout rs n).isSome := by
  intro rs
  induction rs with
  | nil => intro n _; simp [findRollout]
  | cons r rs ih =>
    intro n hnames
    rcases hna : r.name with _ | m
    · have := hnames r (by simp)
      rw [hna] at this
      simp at this
    · by_cases hm : m = n
      · simp [findRollout, hna, hm]
      · simp only [findRollout, hna, if_neg hm]
        exact ih n (fun x hx => hnames x (by simp [hx]))

theorem findRollout_found :
    ∀ (rs : List RolloutRec) (n : String) (r : RolloutRec),
      findRollout rs n = some (some r) → r ∈ rs ∧ r.name = some n := by
  intro rs
  induction rs with
  | nil => intro n r h; simp [findRollout] at h
  | cons x rs ih =>
    intro n r h
    rcases hna : x.name with _ | m
    · simp [findRollout, hna] at h
    · by_cases hm : m = n
      · simp only [findRollout, hna, if_pos hm] at h
        simp at h
        subst h
        exact ⟨by simp, by rw [hna, hm]⟩
      · simp only [findRollout, hna, if_neg hm] at h
        obtain ⟨hmem, hname⟩ := ih n r h
        exact ⟨by simp [hmem], hname⟩

theorem findRollout_match :
    ∀ (rs : List RolloutRec) (n : String), (∀ r ∈ rs, r.name.isSome) →
      (∃ r ∈ rs, r.name = some n) →
      ∃ r, findRollout rs n = some (some r) ∧ r ∈ rs ∧ r.name = some n := by
  intro rs
  induction rs with
  | nil =>
    intro n _ hex
    obtain ⟨r, hr, -⟩ := hex
    exact absurd hr (List.not_mem_nil r)
  | cons x rs ih =>
    intro n hnames hex
    rcases hna : x.name with _ | m
    · have := hnames x (by simp)
      rw [hna] at this
      simp at this
    · by_cases hm : m = n
      · refine ⟨x, ?_, by simp, by rw [hna, hm]⟩
        simp [findRollout, hna, hm]
      · have hex2 : ∃ r ∈ rs, r.name = some n := by
          obtain ⟨r, hr, hrn⟩ := hex
          rcases List.mem_cons.mp hr with rfl | hr2
          · rw [hna] at hrn
            simp at hrn
            exact absurd hrn hm
          · exact ⟨r, hr2, hrn⟩
        obtain ⟨r, hf, hmem, hname⟩ := ih n (fun y hy => hnames y (by simp [hy])) hex2
        refine ⟨r, ?_, by simp [hmem], hname⟩
        simp only [findRollout, hna, if_neg hm]
        exact hf

theorem validRollout_parts (r : RolloutRec) (h : validRolloutB r = true) :
    r.name.isSome ∧ ∃ v, r.default = some v ∧ (DEFAULTS v).isSome := by
  unfold validRolloutB at h
  rcases hd : r.default with _ | v
  · rw [hd] at h
    simp at h
  · rw [hd] at h
    simp at h
    exact ⟨h.1, v, rfl, h.2⟩

theorem tableOk (v : RVal) (h : (DEFAULTS v).isSome) :
    (FINAL_RETURN v).isSome ∧ (FINAL_DEFINE v).isSome ∧
    ∀ (tm : TagMaps) (tags : List String) (n : String),
      (addExperimentToMaps tm v tags n).isSome := by
  rcases v with b | s
  · cases b <;> simp [FINAL_RETURN, FINAL_DEFINE, addExperimentToMaps]
  · by_cases h1 : s = "broken"
    · simp [FINAL_RETURN, FINAL_DEFINE, addExperimentToMaps, h1]
    · by_cases h2 : s = "debug"
      · simp [FINAL_RETURN, FINAL_DEFINE, addExperimentToMaps, h1, h2]
      · exfalso
        simp [DEFAULTS, h1, h2] at h

theorem resolveFound (rollouts : List RolloutRec) (n : String)
    (hnames : ∀ r ∈ rollouts, r.name.isSome)
    (hex : ∃ r ∈ rollouts, r.name = some n) :
    ∃ r, get_rollout_attr_for_experiment rollouts n = some (r, []) ∧
      r ∈ rollouts ∧ r.name = some n := by
  obtain ⟨r, hf, hmem, hname⟩ := findRollout_match rollouts n hnames hex
  exact ⟨r, by simp [get_rollout_attr_for_experiment, hf], hmem, hname⟩

theorem rolloutNames_of_valid (rollouts : List RolloutRec)
    (hroll : ∀ r ∈ rollouts, validRolloutB r = true) :
    ∀ r ∈ rollouts, r.name.isSome :=
  fun r hr => (validRollout_parts r (hroll r hr)).1

/-! ### Rendering succeeds on fully valid, fully matched input -/

/-- Whether an optional string is absent or ASCII-encodable. -/
def asciiOptB : Option String → Bool
  | none => true
  | some s => (strBytes s).all (fun c => c < 128)

theorem c_str_ok (s : String) (h : asciiOptB (some s) = true) :
    (c_str (strBytes s)).isSome := by
  simp only [asciiOptB] at h
  simp at h
  simp [c_str]
  exact h

theorem hFixedForAttr_ok (rollouts : List RolloutRec) (a : ExpRec)
    (hroll : ∀ r ∈ rollouts, validRolloutB r = true)
    (hname : a.name.isSome)
    (hmatch : ∃ r ∈ rollouts, r.name = a.name) :
    (hFixedForAttr rollouts a).isSome := by
  obtain ⟨n, hna⟩ := Option.isSome_iff_exists.mp hname
  rw [hna] at hmatch
  obtain ⟨r, hres, hmem, hrn⟩ :=
    resolveFound rollouts n (rolloutNames_of_valid rollouts hroll) hmatch
  obtain ⟨-, v, hv, hD⟩ := validRollout_parts r (hroll r hmem)
  obtain ⟨hret, hdef, -⟩ := tableOk v hD
  obtain ⟨ret, hret2⟩ := Option.isSome_iff_exists.mp hret
  obtain ⟨df, hdef2⟩ := Option.isSome_iff_exists.mp hdef
  simp [hFixedForAttr, hna, hres, hv, hret2, hdef2]

theorem hFixedLoop_ok (rollouts : List RolloutRec)
    (hroll : ∀ r ∈ rollouts, validRolloutB r = true) :
    ∀ (attrs : List ExpRec),
      (∀ a ∈ attrs, a.name.isSome ∧ (∃ r ∈ rollouts, r.name = a.name)) →
      (hFixedLoop rollouts attrs).isSome := by
  intro attrs
  induction attrs with
  | nil => intro _; simp [hFixedLoop]
  | cons a as ih =>
    intro hs
    obtain ⟨h1, h2⟩ := hs a (by simp)
    obtain ⟨⟨ls, w⟩, hls⟩ :=
      Option.isSome_iff_exists.mp (hFixedForAttr_ok rollouts a hroll h1 h2)
    obtain ⟨⟨rest, ws⟩, hrest⟩ :=
      Option.isSome_iff_exists.mp (ih (fun x hx => hs x (by simp [hx])))
    simp [hFixedLoop, hls, hrest]

theorem hTunableLoop_ok :
    ∀ (attrs : List ExpRec), (∀ a ∈ attrs, a.name.isSome) →
      ∀ (i : Nat), (hTunableLoop i attrs).isSome := by
  intro attrs
  induction attrs with
  | nil => intro _ i; simp [hTunableLoop]
  | cons a as ih =>
    intro hs i
    obtain ⟨n, hna⟩ := Option.isSome_iff_exists.mp (hs a (by simp))
    obtain ⟨rest, hrest⟩ :=
      Option.isSome_iff_exists.mp (ih (fun x hx => hs x (by simp [hx])) (i + 1))
    simp [hTunableLoop, hna, hrest]

theorem renderH_ok (attrs : List ExpRec) (rollouts : List RolloutRec)
    (hroll : ∀ r ∈ rollouts, validRolloutB r = true)
    (hs : ∀ a ∈ attrs, a.name.isSome ∧ (∃ r ∈ rollouts, r.name = a.name)) :
    (renderH attrs rollouts).isSome := by
  obtain ⟨⟨ls, w⟩, hls⟩ :=
    Option.isSome_iff_exists.mp (hFixedLoop_ok rollouts hroll attrs hs)
  obtain ⟨tun, htun⟩ :=
    Option.isSome_iff_exists.mp (hTunableLoop_ok attrs (fun a ha => (hs a ha).1) 0)
  simp [renderH, hls, htun]

theorem cDescLoop_ok :
    ∀ (attrs : List ExpRec),
      (∀ a ∈ attrs, a.name.isSome ∧ a.description.isSome ∧
        asciiOptB a.description = true) →
      (cDescLoop attrs).isSome := by
  intro attrs
  induction attrs with
  | nil => intro _; simp [cDescLoop]
  | cons a as ih =>
    intro hs
    obtain ⟨h1, h2, h3⟩ := hs a (by simp)
    obtain ⟨n, hna⟩ := Option.isSome_iff_exists.mp h1
    obtain ⟨dsc, hdd⟩ := Option.isSome_iff_exists.mp h2
    rw [hdd] at h3
    obtain ⟨dlit, hdlit⟩ := Option.isSome_iff_exists.mp (c_str_ok dsc h3)
    obtain ⟨rest, hrest⟩ :=
      Option.isSome_iff_exists.mp (ih (fun x hx => hs x (by simp [hx])))
    simp [cDescLoop, hna, hdd, hdlit, hrest]

theorem haveDefaultsList_ok :
    ∀ (rollouts : List RolloutRec),
      (∀ r ∈ rollouts, validRolloutB r = true) →
      (haveDefaultsList rollouts).isSome := by
  intro rollouts
  induction rollouts with
  | nil => intro _; simp [haveDefaultsList]
  | cons r rs ih =>
    intro hs
    obtain ⟨-, v, hv, hD⟩ := validRollout_parts r (hs r (by simp))
    obtain ⟨dv, hdv⟩ := Option.isSome_iff_exists.mp hD
    obtain ⟨rest, hrest⟩ :=
      Option.isSome_iff_exists.mp (ih (fun x hx => hs x (by simp [hx])))
    simp [haveDefaultsList, hv, hdv, hrest]

theorem cMetaLoop_ok (rollouts : List RolloutRec)
    (hroll : ∀ r ∈ rollouts, validRolloutB r = true) :
    ∀ (attrs : List ExpRec),
      (∀ a ∈ attrs, a.name.isSome ∧ (∃ r ∈ rollouts, r.name = a.name) ∧
        asciiOptB a.name = true) →
      (cMetaLoop rollouts attrs).isSome := by
  intro attrs
  induction attrs with
  | nil => intro _; simp [cMetaLoop]
  | cons a as ih =>
    intro hs
    obtain ⟨h1, h2, h3⟩ := hs a (by simp)
    obtain ⟨n, hna⟩ := Option.isSome_iff_exists.mp h1
    rw [hna] at h2 h3
    obtain ⟨r, hres, hmem, hrn⟩ :=
      resolveFound rollouts n (rolloutNames_of_valid rollouts hroll) h2
    obtain ⟨-, v, hv, hD⟩ := validRollout_parts r (hroll r hmem)
    obtain ⟨dv, hdv⟩ := Option.isSome_iff_exists.mp hD
    obtain ⟨nlit, hnlit⟩ := Option.isSome_iff_exists.mp (c_str_ok n h3)
    obtain ⟨⟨rest, ws⟩, hrest⟩ :=
      Option.isSome_iff_exists.mp (ih (fun x hx => hs x (by simp [hx])))
    simp [cMetaLoop, hna, hres, hv, hdv, hnlit, hrest]

theorem renderC_ok (attrs : List ExpRec) (rollouts : List RolloutRec)
    (hroll : ∀ r ∈ rollouts, validRolloutB r = true)
    (hs : ∀ a ∈ attrs, a.name.isSome ∧ a.description.isSome ∧
      (∃ r ∈ rollouts, r.name = a.name) ∧
      asciiOptB a.name = true ∧ asciiOptB a.description = true) :
    (renderC attrs rollouts).isSome := by
  obtain ⟨descs, hdescs⟩ := Option.isSome_iff_exists.mp
    (cDescLoop_ok attrs (fun a ha => ⟨(hs a ha).1, (hs a ha).2.1, (hs a ha).2.2.2.2⟩))
  obtain ⟨hd, hhd⟩ := Option.isSome_iff_exists.mp (haveDefaultsList_ok rollouts hroll)
  obtain ⟨⟨metas, w⟩, hmetas⟩ := Option.isSome_iff_exists.mp
    (cMetaLoop_ok rollouts hroll attrs
      (fun a ha => ⟨(hs a ha).1, (hs a ha).2.2.1, (hs a ha).2.2.2.1⟩))
  simp [renderC, hdescs, debugBlock, hhd, hmetas]

theorem bzlCollect_ok (rollouts : List RolloutRec)
    (hroll : ∀ r ∈ rollouts, validRolloutB r = true) :
    ∀ (attrs : List ExpRec),
      (∀ a ∈ attrs, a.name.isSome ∧ (∃ r ∈ rollouts, r.name = a.name) ∧
        a.test_tags.isSome) →
      ∀ (tm : TagMaps), (bzlCollect rollouts attrs tm).isSome := by
  intro attrs
  induction attrs with
  | nil => intro _ tm; simp [bzlCollect]
  | cons a as ih =>
    intro hs tm
    obtain ⟨h1, h2, h3⟩ := hs a (by simp)
    obtain ⟨n, hna⟩ := Option.isSome_iff_exists.mp h1
    rw [hna] at h2
    obtain ⟨r, hres, hmem, hrn⟩ :=
      resolveFound rollouts n (rolloutNames_of_valid rollouts hroll) h2
    obtain ⟨-, v, hv, hD⟩ := validRollout_parts r (hroll r hmem)
    obtain ⟨tags, htags⟩ := Option.isSome_iff_exists.mp h3
    obtain ⟨tm2, htm2⟩ :=
      Option.isSome_iff_exists.mp ((tableOk v hD).2.2 tm tags n)
    obtain ⟨⟨tmf, ws⟩, htmf⟩ :=
      Option.isSome_iff_exists.mp (ih (fun x hx => hs x (by simp [hx])) tm2)
    simp [bzlCollect, hna, hres, hv, htags, htm2, htmf]

theorem renderBzl_ok (attrs : List ExpRec) (rollouts : List RolloutRec)
    (hroll : ∀ r ∈ rollouts, validRolloutB r = true)
    (hs : ∀ a ∈ attrs, a.name.isSome ∧ (∃ r ∈ rollouts, r.name = a.name) ∧
      a.test_tags.isSome) :
    (renderBzl attrs rollouts).isSome := by
  obtain ⟨⟨tm, w⟩, htm⟩ := Option.isSome_iff_exists.mp
    (bzlCollect_ok rollouts hroll attrs hs ⟨[], [], [], []⟩)
  simp [renderBzl, htm]

/-- Shared success lemma: on any input where every rollout record is
valid, every experiment record has a name, an ASCII name, an ASCII
description, a `test_tags` field and a matching rollout record, all
three artifacts render without an exception. -/
theorem renderAll_ok (attrs : List ExpRec) (rollouts : List RolloutRec)
    (hroll : ∀ r ∈ rollouts, validRolloutB r = true)
    (hs : ∀ a ∈ attrs, a.name.isSome ∧ a.description.isSome ∧
      (∃ r ∈ rollouts, r.name = a.name) ∧ a.test_tags.isSome ∧
      asciiOptB a.name = true ∧ asciiOptB a.description = true) :
    (renderAll attrs rollouts).isSome := by
  obtain ⟨⟨hl, w1⟩, hh⟩ := Option.isSome_iff_exists.mp
    (renderH_ok attrs rollouts hroll (fun a ha => ⟨(hs a ha).1, (hs a ha).2.2.1⟩))
  obtain ⟨⟨cl, w2⟩, hc⟩ := Option.isSome_iff_exists.mp
    (renderC_ok attrs rollouts hroll
      (fun a ha => ⟨(hs a ha).1, (hs a ha).2.1, (hs a ha).2.2.1,
        (hs a ha).2.2.2.2.1, (hs a ha).2.2.2.2.2⟩))
  obtain ⟨⟨bl, w3⟩, hb⟩ := Option.isSome_iff_exists.mp
    (renderBzl_ok attrs rollouts hroll
      (fun a ha => ⟨(hs a ha).1, (hs a ha).2.2.1, (hs a ha).2.2.2.1⟩))
  simp [renderAll, hh, hc, hb]

/-! ### C3: rendering after successful validation -/

def fooNoTags : ExpRec := ⟨some "foo", some "d", some "o", some "2026/11/01", none, none⟩

/-- C3 (counterexample): an experiment record with no `test_tags` field
passes validation (which never checks `test_tags`), but the bzl
renderer's unguarded `attr['test_tags']` access raises `KeyError`, so
rendering does not complete and the run aborts — refuting "rendering
completes without raising any error ... in particular ... for validated
experiment records that lack a test_tags field". -/
theorem c3_counterexample :
    validateAll (dateOrdinal 2026 10 12) true [fooNoTags]
      [⟨some "foo", some (.pbool true)⟩] = some (false, []) ∧
    renderBzl [fooNoTags] [⟨some "foo", some (.pbool true)⟩] = none ∧
    renderAll [fooNoTags] [⟨some "foo", some (.pbool true)⟩] = none ∧
    runGen (dateOrdinal 2026 10 12) true [fooNoTags]
      [⟨some "foo", some (.pbool true)⟩] = none := by
  refine ⟨by decide, rfl, rfl, ?_⟩
  have h1 : validateAll (dateOrdinal 2026 10 12) true [fooNoTags]
      [⟨some "foo", some (.pbool true)⟩] = some (false, []) := by decide
  have h2 : renderAll [fooNoTags] [⟨some "foo", some (.pbool true)⟩] = none := rfl
  simp [runGen, h1, h2]

/-- C3 (amended): for every input that passes validation and in which
additionally every experiment record has a `test_tags` field, a rollout
record matching its name, and ASCII-encodable name and description —
the conditions the counterexamples show are genuinely needed, since
validation checks none of them — rendering of all three artifacts
completes without an exception and the run exits 0. -/
theorem c3_render_amended (today : Nat) (cd : Bool) (attrs : List ExpRec)
    (rollouts : List RolloutRec) (msgs : List String)
    (hv : validateAll today cd attrs rollouts = some (false, msgs))
    (htags : ∀ a ∈ attrs, a.test_tags.isSome)
    (hmatch : ∀ a ∈ attrs, ∃ r ∈ rollouts, r.name = a.name)
    (hascii : ∀ a ∈ attrs, asciiOptB a.name = true ∧ asciiOptB a.description = true) :
    ∃ out, renderAll attrs rollouts = some out ∧
      runGen today cd attrs rollouts = some (0, msgs, some out) := by
  obtain ⟨⟨m1, h1⟩, ⟨m2, s, h2⟩⟩ := validateAll_false_inv today cd attrs rollouts msgs hv
  have hroll := checkRollouts_ok rollouts m1 h1
  have hexp := expLoop_ok today cd attrs m2 s h2
  have hall : (renderAll attrs rollouts).isSome := by
    apply renderAll_ok attrs rollouts hroll
    intro a ha
    obtain ⟨hn, hd, ho, hx⟩ := hexp a ha
    exact ⟨hn, hd, hmatch a ha, htags a ha, (hascii a ha).1, (hascii a ha).2⟩
  obtain ⟨out, hout⟩ := Option.isSome_iff_exists.mp hall
  refine ⟨out, hout, ?_⟩
  simp [runGen, hv, hout]

/-- C3 (witness): the amended theorem applied to a concrete one-record
input: rendering and the whole run succeed with exit status 0. -/
theorem c3_witness :
    ∃ out, renderAll [fooC1] [⟨some "foo", some (.pbool true)⟩] = some out ∧
      runGen (dateOrdinal 2026 10 12) true [fooC1]
        [⟨some "foo", some (.pbool true)⟩] = some (0, [], some out) :=
  c3_render_amended (dateOrdinal 2026 10 12) true [fooC1]
    [⟨some "foo", some (.pbool true)⟩] [] (by decide) (by decide) (by decide) (by decide)

/-- C7 (counterexample, continued): the structured proof for the
oversized relaxed-mode run. -/
theorem c7_counterexample :
    2000 < (annHead ++ (bigName ++ ":0,")).length ∧
    validateAll 0 false [bigExp] [bigRoll] = some (false, []) ∧
    (runGen 0 false [bigExp] [bigRoll]).map Prod.fst = some 0 := by
  have hbig : bigName.length = 2100 := by
    show (String.mk (List.replicate 2100 'a')).length = 2100
    rw [String.length_mk, List.length_replicate]
  have hval : validateAll 0 false [bigExp] [bigRoll] = some (false, []) := by decide
  refine ⟨?_, hval, ?_⟩
  · rw [String.length_append, String.length_append, hbig]
    have : annHead.length = 17 := by decide
    omega
  · have hro : ∀ r ∈ [bigRoll], validRolloutB r = true := by decide
    have hascii : asciiOptB bigExp.name = true := by
      have hb : bigExp.name = some bigName := rfl
      rw [hb]
      simp only [asciiOptB]
      rw [show strBytes bigName = (List.replicate 2100 'a').map Char.toNat from rfl]
      rw [List.map_replicate]
      simp only [List.all_eq_true]
      intro x hx
      have hxa := List.eq_of_mem_replicate hx
      subst hxa
      decide
    have hrender : (renderAll [bigExp] [bigRoll]).isSome := by
      apply renderAll_ok [bigExp] [bigRoll] hro
      intro a ha
      have ha2 : a = bigExp := by simpa using ha
      subst ha2
      exact ⟨rfl, rfl, ⟨bigRoll, by simp, rfl⟩, rfl, hascii, by decide⟩
    obtain ⟨out, hout⟩ := Option.isSome_iff_exists.mp hrender
    simp [runGen, hval, hout]

/-! ### C5: rollout records with no matching experiment -/

/-- Whether a rollout record's name equals the name of some experiment
record. -/
def rolloutMatches (attrs : List ExpRec) (r : RolloutRec) : Bool :=
  attrs.any (fun a => a.name.isSome && (a.name == r.name))

/-- Whether a rollout record carries the `debug` default (the one key
whose mere presence anywhere in the rollout document changes the
`kDefaultForDebugOnly` block of the definitions artifact). -/
def isDebugDefault (r : RolloutRec) : Bool :=
  r.default == some (.pstr "debug")

theorem validRollout_defaultOk (r : RolloutRec) (h : validRolloutB r = true) :
    (r.default.bind DEFAULTS).isSome := by
  obtain ⟨-, v, hv, hD⟩ := validRollout_parts r h
  rw [hv]
  exact hD

theorem checkRollouts_filter (p : RolloutRec → Bool) :
    ∀ (rs : List RolloutRec), (∀ r ∈ rs, p r = false → validRolloutB r = true) →
      checkRollouts rs = checkRollouts (rs.filter p) := by
  intro rs
  induction rs with
  | nil => intro _; rfl
  | cons r rs ih =>
    intro hvp
    have ihr := ih (fun x hx hpx => hvp x (by simp [hx]) hpx)
    by_cases hp : p r = true
    · rw [List.filter_cons_of_pos hp]
      simp only [checkRollouts]
      rw [ihr]
    · have hpf : p r = false := by simpa using hp
      rw [List.filter_cons_of_neg (by simp [hpf])]
      obtain ⟨hn, v, hv, hD⟩ := validRollout_parts r (hvp r (by simp) hpf)
      obtain ⟨n, hna⟩ := Option.isSome_iff_exists.mp hn
      rw [← ihr]
      simp only [checkRollouts, hna, hv]
      rcases hc : checkRollouts rs with _ | ⟨e, ms⟩
      · rfl
      · simp [hD]

theorem findRollout_filter (p : RolloutRec → Bool) (n : String) :
    ∀ (rs : List RolloutRec),
      (∀ r ∈ rs, p r = false → r.name.isSome ∧ r.name ≠ some n) →
      findRollout rs n = findRollout (rs.filter p) n := by
  intro rs
  induction rs with
  | nil => intro _; rfl
  | cons r rs ih =>
    intro hvp
    have ihr := ih (fun x hx hpx => hvp x (by simp [hx]) hpx)
    by_cases hp : p r = true
    · rw [List.filter_cons_of_pos hp]
      simp only [findRollout]
      rcases r.name with _ | m
      · rfl
      · by_cases hm : m = n <;> simp [hm, ihr]
    · have hpf : p r = false := by simpa using hp
      rw [List.filter_cons_of_neg (by simp [hpf])]
      obtain ⟨hn, hne⟩ := hvp r (by simp) hpf
      obtain ⟨m, hna⟩ := Option.isSome_iff_exists.mp hn
      have hm : ¬ m = n := by
        intro hcon
        exact hne (by rw [hna, hcon])
      simp only [findRollout, hna, if_neg hm]
      exact ihr

theorem get_rollout_congr (R1 R2 : List RolloutRec) (n : String)
    (h : findRollout R1 n = findRollout R2 n) :
    get_rollout_attr_for_experiment R1 n = get_rollout_attr_for_experiment R2 n := by
  simp only [get_rollout_attr_for_experiment, h]

theorem hFixedForAttr_congr (R1 R2 : List RolloutRec) (a : ExpRec)
    (h : ∀ n, a.name = some n →
      get_rollout_attr_for_experiment R1 n = get_rollout_attr_for_experiment R2 n) :
    hFixedForAttr R1 a = hFixedForAttr R2 a := by
  rcases hna : a.name with _ | n
  · simp [hFixedForAttr, hna]
  · simp only [hFixedForAttr, hna, Option.bind_eq_bind, Option.some_bind]
    rw [h n hna]

theorem hFixedLoop_congr (R1 R2 : List RolloutRec) :
    ∀ (attrs : List ExpRec),
      (∀ a ∈ attrs, ∀ n, a.name = some n →
        get_rollout_attr_for_experiment R1 n = get_rollout_attr_for_experiment R2 n) →
      hFixedLoop R1 attrs = hFixedLoop R2 attrs := by
  intro attrs
  induction attrs with
  | nil => intro _; rfl
  | cons a as ih =>
    intro hL
    have h1 := hFixedForAttr_congr R1 R2 a (fun n hn => hL a (by simp) n hn)
    have h2 := ih (fun x hx n hn => hL x (by simp [hx]) n hn)
    simp only [hFixedLoop]
    rw [h1, h2]

theorem cMetaLoop_congr (R1 R2 : List RolloutRec) :
    ∀ (attrs : List ExpRec),
      (∀ a ∈ attrs, ∀ n, a.name = some n →
        get_rollout_attr_for_experiment R1 n = get_rollout_attr_for_experiment R2 n) →
      cMetaLoop R1 attrs = cMetaLoop R2 attrs := by
  intro attrs
  induction attrs with
  | nil => intro _; rfl
  | cons a as ih =>
    intro hL
    have h2 := ih (fun x hx n hn => hL x (by simp [hx]) n hn)
    rcases hna : a.name with _ | n
    · simp [cMetaLoop, hna]
    · simp only [cMetaLoop, hna, Option.bind_eq_bind, Option.some_bind]
      rw [hL a (by simp) n hna, h2]

theorem bzlCollect_congr (R1 R2 : List RolloutRec) :
    ∀ (attrs : List ExpRec),
      (∀ a ∈ attrs, ∀ n, a.name = some n →
        get_rollout_attr_for_experiment R1 n = get_rollout_attr_for_experiment R2 n) →
      ∀ (tm : TagMaps), bzlCollect R1 attrs tm = bzlCollect R2 attrs tm := by
  intro attrs
  induction attrs with
  | nil => intro _ tm; rfl
  | cons a as ih =>
    intro hL tm
    have h2 := ih (fun x hx n hn => hL x (by simp [hx]) n hn)
    rcases hna : a.name with _ | n
    · simp [bzlCollect, hna]
    · simp only [bzlCollect, hna, Option.bind_eq_bind, Option.some_bind]
      rw [hL a (by simp) n hna]
      simp only [h2]

theorem DEFAULTS_debug (v : RVal) (s : String) (h : DEFAULTS v = some s) :
    s = "kDefaultForDebugOnly" ↔ v = .pstr "debug" := by
  rcases v with b | t
  · cases b <;> simp [DEFAULTS] at h <;> subst h <;> simp
  · by_cases h1 : t = "broken"
    · simp [DEFAULTS, h1] at h
      subst h
      simp [h1]
    · by_cases h2 : t = "debug"
      · simp [DEFAULTS, h1, h2] at h
        subst h
        simp [h2]
      · simp [DEFAULTS, h1, h2] at h

theorem haveDefaultsList_debug :
    ∀ (rs : List RolloutRec) (L : List String), haveDefaultsList rs = some L →
      L.contains "kDefaultForDebugOnly" = rs.any isDebugDefault := by
  intro rs
  induction rs with
  | nil =>
    intro L h
    simp [haveDefaultsList] at h
    subst h
    rfl
  | cons r rs ih =>
    intro L h
    rcases hv : r.default with _ | v
    · simp [haveDefaultsList, hv] at h
    · rcases hD : DEFAULTS v with _ | s
      · simp [haveDefaultsList, hv, hD] at h
      · rcases hrest : haveDefaultsList rs with _ | L2
        · simp [haveDefaultsList, hv, hD, hrest] at h
        · simp [haveDefaultsList, hv, hD, hrest] at h
          subst h
          rw [List.contains_cons, List.any_cons, ih L2 hrest]
          have hdd : isDebugDefault r = ("kDefaultForDebugOnly" == s) := by
            by_cases hs : s = "kDefaultForDebugOnly"
            · have hv2 : v = .pstr "debug" := (DEFAULTS_debug v s hD).mp hs
              simp [isDebugDefault, hv, hv2, hs]
            · have hv2 : ¬ v = .pstr "debug" :=
                fun hcon => hs ((DEFAULTS_debug v s hD).mpr hcon)
              simp [isDebugDefault, hv, hv2, Ne.symm hs]
          rw [hdd]

theorem haveDefaultsList_isSome_iff :
    ∀ (rs : List RolloutRec), (haveDefaultsList rs).isSome ↔
      ∀ r ∈ rs, (r.default.bind DEFAULTS).isSome := by
  intro rs
  induction rs with
  | nil => simp [haveDefaultsList]
  | cons r rs ih =>
    rcases hv : r.default with _ | v
    · simp [haveDefaultsList, hv]
    · rcases hD : DEFAULTS v with _ | s
      · simp [haveDefaultsList, hv, hD]
      · rcases hrest : haveDefaultsList rs with _ | L2 <;>
          rw [hrest] at ih <;>
          simp [haveDefaultsList, hv, hD, hrest, ← ih]

theorem debugBlock_congr (R1 R2 : List RolloutRec)
    (hsome : (haveDefaultsList R1).isSome ↔ (haveDefaultsList R2).isSome)
    (hdbg : R1.any isDebugDefault = R2.any isDebugDefault) :
    debugBlock R1 = debugBlock R2 := by
  rcases h1 : haveDefaultsList R1 with _ | L1
  · rcases h2 : haveDefaultsList R2 with _ | L2
    · simp [debugBlock, h1, h2]
    · rw [h1, h2] at hsome
      simp at hsome
  · rcases h2 : haveDefaultsList R2 with _ | L2
    · rw [h1, h2] at hsome
      simp at hsome
    · have e1 := haveDefaultsList_debug R1 L1 h1
      have e2 := haveDefaultsList_debug R2 L2 h2
      simp only [debugBlock, h1, h2, Option.map_some']
      rw [e1, e2, hdbg]

theorem renderAll_congr (attrs : List ExpRec) (R1 R2 : List RolloutRec)
    (hL : ∀ a ∈ attrs, ∀ n, a.name = some n →
      get_rollout_attr_for_experiment R1 n = get_rollout_attr_for_experiment R2 n)
    (hdb : debugBlock R1 = debugBlock R2) :
    renderAll attrs R1 = renderAll attrs R2 := by
  have hH : renderH attrs R1 = renderH attrs R2 := by
    simp only [renderH, hFixedLoop_congr R1 R2 attrs hL]
  have hC : renderC attrs R1 = renderC attrs R2 := by
    simp only [renderC, hdb, cMetaLoop_congr R1 R2 attrs hL]
  have hB : renderBzl attrs R1 = renderBzl attrs R2 := by
    simp only [renderBzl, bzlCollect_congr R1 R2 attrs hL]
  simp only [renderAll, hH, hC, hB]

/-- C5 (amended): two rollout documents that agree on their sublists of
entries whose name matches some experiment record, whose non-matching
entries are all valid (named, recognized default), and that agree on
whether any entry carries the `debug` default, produce identical
validation outcomes, identical warnings and artifacts (as one rendering
result), and identical whole runs.  The two extra conditions are forced
by the counterexample: an unmatched entry is still validated (an
invalid one fails the run), and an unmatched entry's default still
enters `have_defaults`, whose `debug` membership changes the
definitions artifact. -/
theorem c5_unmatched_rollouts (today : Nat) (cd : Bool) (attrs : List ExpRec)
    (R1 R2 : List RolloutRec)
    (hf : R1.filter (rolloutMatches attrs) = R2.filter (rolloutMatches attrs))
    (h1 : ∀ r ∈ R1, rolloutMatches attrs r = false → validRolloutB r = true)
    (h2 : ∀ r ∈ R2, rolloutMatches attrs r = false → validRolloutB r = true)
    (hd : R1.any isDebugDefault = R2.any isDebugDefault) :
    validateAll today cd attrs R1 = validateAll today cd attrs R2 ∧
    renderAll attrs R1 = renderAll attrs R2 ∧
    runGen today cd attrs R1 = runGen today cd attrs R2 := by
  have hchk : checkRollouts R1 = checkRollouts R2 := by
    rw [checkRollouts_filter (rolloutMatches attrs) R1 h1,
        checkRollouts_filter (rolloutMatches attrs) R2 h2, hf]
  have hval : validateAll today cd attrs R1 = validateAll today cd attrs R2 := by
    simp only [validateAll, hchk]
  have hL : ∀ a ∈ attrs, ∀ n, a.name = some n →
      get_rollout_attr_for_experiment R1 n = get_rollout_attr_for_experiment R2 n := by
    intro a ha n hn
    apply get_rollout_congr
    have hcond : ∀ (R : List RolloutRec),
        (∀ r ∈ R, rolloutMatches attrs r = false → validRolloutB r = true) →
        ∀ r ∈ R, rolloutMatches attrs r = false →
          r.name.isSome ∧ r.name ≠ some n := by
      intro R hR r hr hm
      refine ⟨(validRollout_parts r (hR r hr hm)).1, ?_⟩
      intro hcon
      have hmt : rolloutMatches attrs r = true := by
        unfold rolloutMatches
        rw [List.any_eq_true]
        refine ⟨a, ha, ?_⟩
        rw [hn, hcon]
        simp
      rw [hmt] at hm
      exact absurd hm (by simp)
    rw [findRollout_filter (rolloutMatches attrs) n R1 (hcond R1 h1),
        findRollout_filter (rolloutMatches attrs) n R2 (hcond R2 h2), hf]
  have hdbg : debugBlock R1 = debugBlock R2 := by
    apply debugBlock_congr _ _ _ hd
    rw [haveDefaultsList_isSome_iff, haveDefaultsList_isSome_iff]
    constructor
    · intro hall r hr
      by_cases hm : rolloutMatches attrs r = true
      · have : r ∈ R1.filter (rolloutMatches attrs) := by
          rw [hf]
          exact List.mem_filter.mpr ⟨hr, hm⟩
        exact hall r (List.mem_filter.mp this).1
      · exact validRollout_defaultOk r (h2 r hr (by simpa using hm))
    · intro hall r hr
      by_cases hm : rolloutMatches attrs r = true
      · have : r ∈ R2.filter (rolloutMatches attrs) := by
          rw [← hf]
          exact List.mem_filter.mpr ⟨hr, hm⟩
        exact hall r (List.mem_filter.mp this).1
      · exact validRollout_defaultOk r (h1 r hr (by simpa using hm))
  have hrender := renderAll_congr attrs R1 R2 hL hdbg
  refine ⟨hval, hrender, ?_⟩
  simp only [runGen, hval, hrender]

/-- C5 (counterexample): adding to the rollout document one entry
(`bar`, default `debug`) whose name matches no experiment record
changes the content of the definitions artifact — the
`kDefaultForDebugOnly` guard block appears — even though validation
still passes and warnings are unchanged, refuting "the content of all
three emitted artifacts [is] identical". -/
theorem c5_counterexample :
    rolloutMatches [fooC1] ⟨some "bar", some (.pstr "debug")⟩ = false ∧
    validateAll (dateOrdinal 2026 10 12) true [fooC1]
      [⟨some "foo", some (.pbool true)⟩] = some (false, []) ∧
    validateAll (dateOrdinal 2026 10 12) true [fooC1]
      [⟨some "foo", some (.pbool true)⟩, ⟨some "bar", some (.pstr "debug")⟩] =
      some (false, []) ∧
    renderAll [fooC1] [⟨some "foo", some (.pbool true)⟩] ≠
      renderAll [fooC1]
        [⟨some "foo", some (.pbool true)⟩, ⟨some "bar", some (.pstr "debug")⟩] := by
  refine ⟨rfl, by decide, by decide, ?_⟩
  decide

/-- C5 (witness): the amended theorem applied to a concrete pair of
rollout documents differing by one valid, non-debug, unmatched entry:
all three artifacts (and the whole run) agree. -/
theorem c5_witness :
    ([⟨some "foo", some (.pbool true)⟩] : List RolloutRec).filter
        (rolloutMatches [fooC1]) =
      ([⟨some "foo", some (.pbool true)⟩, ⟨some "bar", some (.pstr "broken")⟩] :
        List RolloutRec).filter (rolloutMatches [fooC1]) ∧
    renderAll [fooC1] [⟨some "foo", some (.pbool true)⟩] =
      renderAll [fooC1]
        [⟨some "foo", some (.pbool true)⟩, ⟨some "bar", some (.pstr "broken")⟩] ∧
    runGen (dateOrdinal 2026 10 12) true [fooC1] [⟨some "foo", some (.pbool true)⟩] =
      runGen (dateOrdinal 2026 10 12) true [fooC1]
        [⟨some "foo", some (.pbool true)⟩, ⟨some "bar", some (.pstr "broken")⟩] := by
  have h := c5_unmatched_rollouts (dateOrdinal 2026 10 12) true [fooC1]
    [⟨some "foo", some (.pbool true)⟩]
    [⟨some "foo", some (.pbool true)⟩, ⟨some "bar", some (.pstr "broken")⟩]
    (by decide) (by decide) (by decide) (by decide)
  exact ⟨by decide, h.2.1, h.2.2⟩

/-! ### C6: determinism and rollout-order invariance -/

theorem permAny {α : Type} (p : α → Bool) (l1 l2 : List α) (h : l1.Perm l2) :
    l1.any p = l2.any p := by
  cases h1 : l1.any p <;> cases h2 : l2.any p <;> try rfl
  · rw [List.any_eq_true] at h2
    obtain ⟨x, hx, hpx⟩ := h2
    have hc : l1.any p = true := List.any_eq_true.mpr ⟨x, h.mem_iff.mpr hx, hpx⟩
    rw [h1] at hc
    exact absurd hc (by simp)
  · rw [List.any_eq_true] at h1
    obtain ⟨x, hx, hpx⟩ := h1
    have hc : l2.any p = true := List.any_eq_true.mpr ⟨x, h.mem_iff.mp hx, hpx⟩
    rw [h2] at hc
    exact absurd hc (by simp)

theorem find_eq_of_unique {α : Type} (q : α → Bool) (r : α) :
    ∀ (l : List α), r ∈ l → q r = true → (∀ x ∈ l, q x = true → x = r) →
      l.find? q = some r := by
  intro l
  induction l with
  | nil => intro h _ _; exact absurd h (List.not_mem_nil r)
  | cons x xs ih =>
    intro hr hq huniq
    by_cases hx : q x = true
    · rw [List.find?_cons_of_pos xs hx]
      rw [huniq x (by simp) hx]
    · rw [List.find?_cons_of_neg xs hx]
      rcases List.mem_cons.mp hr with rfl | hr2
      · exact absurd hq hx
      · exact ih hr2 hq (fun y hy hqy => huniq y (by simp [hy]) hqy)

theorem findRollout_eq_find :
    ∀ (rs : List RolloutRec) (n : String), (∀ r ∈ rs, r.name.isSome) →
      findRollout rs n = some (rs.find? (fun r => r.name == some n)) := by
  intro rs
  induction rs with
  | nil => intro n _; rfl
  | cons r rs ih =>
    intro n hnames
    obtain ⟨m, hna⟩ := Option.isSome_iff_exists.mp (hnames r (by simp))
    by_cases hm : m = n
    · rw [List.find?_cons_of_pos rs (by rw [hna, hm]; simp)]
      simp [findRollout, hna, hm]
    · rw [List.find?_cons_of_neg rs (by rw [hna]; simp [hm])]
      simp only [findRollout, hna, if_neg hm]
      exact ih n (fun x hx => hnames x (by simp [hx]))

theorem checkRollouts_of_valid :
    ∀ (rs : List RolloutRec), (∀ r ∈ rs, validRolloutB r = true) →
      checkRollouts rs = some (false, []) := by
  intro rs
  induction rs with
  | nil => intro _; rfl
  | cons r rs ih =>
    intro hv
    obtain ⟨hn, v, hdv, hD⟩ := validRollout_parts r (hv r (by simp))
    obtain ⟨n, hna⟩ := Option.isSome_iff_exists.mp hn
    simp only [checkRollouts, hna, hdv]
    rw [ih (fun x hx => hv x (by simp [hx]))]
    simp [hD]

theorem findRollout_perm (R1 R2 : List RolloutRec)
    (hperm : R1.Perm R2)
    (hnames : ∀ r ∈ R1, r.name.isSome)
    (hnodup : (R1.map RolloutRec.name).Nodup)
    (n : String) :
    findRollout R1 n = findRollout R2 n := by
  have hnames2 : ∀ r ∈ R2, r.name.isSome :=
    fun r hr => hnames r (hperm.mem_iff.mpr hr)
  rw [findRollout_eq_find R1 n hnames, findRollout_eq_find R2 n hnames2]
  by_cases hex : ∃ r ∈ R1, r.name = some n
  · obtain ⟨r, hr, hrn⟩ := hex
    have huniq : ∀ x ∈ R1, (x.name == some n) = true → x = r := by
      intro x hx hq
      have hxn : x.name = some n := by simpa using hq
      exact List.inj_on_of_nodup_map hnodup hx hr (by rw [hxn, hrn])
    have h1 : R1.find? (fun r => r.name == some n) = some r :=
      find_eq_of_unique _ r R1 hr (by simp [hrn]) huniq
    have h2 : R2.find? (fun r => r.name == some n) = some r :=
      find_eq_of_unique _ r R2 (hperm.mem_iff.mp hr) (by simp [hrn])
        (fun x hx hq => huniq x (hperm.mem_iff.mpr hx) hq)
    rw [h1, h2]
  · have hal : ∀ x ∈ R1, ¬ (x.name == some n) = true := by
      intro x hx hq
      exact hex ⟨x, hx, by simpa using hq⟩
    have h1 : R1.find? (fun r => r.name == some n) = none :=
      List.find?_eq_none.mpr hal
    have h2 : R2.find? (fun r => r.name == some n) = none :=
      List.find?_eq_none.mpr (fun x hx => hal x (hperm.mem_iff.mpr hx))
    rw [h1, h2]

/-- C6 (amended): rendering is deterministic — in this pure embedding,
rendering the same input twice is definitionally the same result — and,
*provided no two rollout records share a name* (a condition validation
does not enforce, whose necessity the counterexample shows), permuting
the rollout document of a validation-passing input leaves the
validation outcome, every artifact and the whole run unchanged. -/
theorem c6_determinism_perm (today : Nat) (cd : Bool) (attrs : List ExpRec)
    (R1 R2 : List RolloutRec) (msgs : List String)
    (hperm : R1.Perm R2)
    (hnodup : (R1.map RolloutRec.name).Nodup)
    (hv : validateAll today cd attrs R1 = some (false, msgs)) :
    renderAll attrs R1 = renderAll attrs R1 ∧
    validateAll today cd attrs R1 = validateAll today cd attrs R2 ∧
    renderAll attrs R1 = renderAll attrs R2 ∧
    runGen today cd attrs R1 = runGen today cd attrs R2 := by
  obtain ⟨⟨m1, h1⟩, -⟩ := validateAll_false_inv today cd attrs R1 msgs hv
  have hvalid1 := checkRollouts_ok R1 m1 h1
  have hvalid2 : ∀ r ∈ R2, validRolloutB r = true :=
    fun r hr => hvalid1 r (hperm.mem_iff.mpr hr)
  have hchk : checkRollouts R1 = checkRollouts R2 := by
    rw [checkRollouts_of_valid R1 hvalid1, checkRollouts_of_valid R2 hvalid2]
  have hval : validateAll today cd attrs R1 = validateAll today cd attrs R2 := by
    simp only [validateAll, hchk]
  have hnames1 := rolloutNames_of_valid R1 hvalid1
  have hL : ∀ a ∈ attrs, ∀ n, a.name = some n →
      get_rollout_attr_for_experiment R1 n = get_rollout_attr_for_experiment R2 n :=
    fun a _ n _ =>
      get_rollout_congr R1 R2 n (findRollout_perm R1 R2 hperm hnames1 hnodup n)
  have hdbg : debugBlock R1 = debugBlock R2 := by
    apply debugBlock_congr
    · rw [haveDefaultsList_isSome_iff, haveDefaultsList_isSome_iff]
      constructor
      · intro _ r hr; exact validRollout_defaultOk r (hvalid2 r hr)
      · intro _ r hr; exact validRollout_defaultOk r (hvalid1 r hr)
    · exact permAny isDebugDefault R1 R2 hperm
  have hrender := renderAll_congr attrs R1 R2 hL hdbg
  refine ⟨rfl, hval, hrender, ?_⟩
  simp only [runGen, hval, hrender]

/-- C6 (counterexample): with two validation-passing rollout records
sharing the name `foo` (uniqueness is never validated), swapping their
order flips which record first-match resolution returns, changing the
emitted accessor from always-true to always-false: permuting the
rollout document changes the declarations artifact. -/
theorem c6_counterexample :
    ([⟨some "foo", some (.pbool true)⟩, ⟨some "foo", some (.pbool false)⟩] :
        List RolloutRec).Perm
      [⟨some "foo", some (.pbool false)⟩, ⟨some "foo", some (.pbool true)⟩] ∧
    validateAll (dateOrdinal 2026 10 12) true [fooC1]
      [⟨some "foo", some (.pbool true)⟩, ⟨some "foo", some (.pbool false)⟩] =
      some (false, []) ∧
    validateAll (dateOrdinal 2026 10 12) true [fooC1]
      [⟨some "foo", some (.pbool false)⟩, ⟨some "foo", some (.pbool true)⟩] =
      some (false, []) ∧
    renderAll [fooC1]
        [⟨some "foo", some (.pbool true)⟩, ⟨some "foo", some (.pbool false)⟩] ≠
      renderAll [fooC1]
        [⟨some "foo", some (.pbool false)⟩, ⟨some "foo", some (.pbool true)⟩] := by
  refine ⟨List.Perm.swap _ _ _, by decide, by decide, ?_⟩
  decide

/-- C6 (witness): the amended theorem applied to a two-record rollout
document with distinct names and its swap: all artifacts and the whole
run agree. -/
theorem c6_witness :
    (([⟨some "foo", some (.pbool true)⟩, ⟨some "bar", some (.pbool false)⟩] :
        List RolloutRec).map RolloutRec.name).Nodup ∧
    renderAll [fooC1]
        [⟨some "foo", some (.pbool true)⟩, ⟨some "bar", some (.pbool false)⟩] =
      renderAll [fooC1]
        [⟨some "bar", some (.pbool false)⟩, ⟨some "foo", some (.pbool true)⟩] ∧
    runGen (dateOrdinal 2026 10 12) true [fooC1]
        [⟨some "foo", some (.pbool true)⟩, ⟨some "bar", some (.pbool false)⟩] =
      runGen (dateOrdinal 2026 10 12) true [fooC1]
        [⟨some "bar", some (.pbool false)⟩, ⟨some "foo", some (.pbool true)⟩] := by
  have h := c6_determinism_perm (dateOrdinal 2026 10 12) true [fooC1]
    [⟨some "foo", some (.pbool true)⟩, ⟨some "bar", some (.pbool false)⟩]
    [⟨some "bar", some (.pbool false)⟩, ⟨some "foo", some (.pbool true)⟩] []
    (List.Perm.swap _ _ _) (by decide) (by decide)
  exact ⟨by decide, h.2.2.1, h.2.2.2⟩
